import Mathlib

/-!
Verification of the keyword-registry webhook bot (src/main.py).

The development shallowly embeds the Python source:

* Python strings are Lean `String`s; character-level operations are defined
  on the underlying `List Char`.  `str.lower` is modelled by `Char.toLower`,
  which covers the ASCII range; the design notes of the project state that
  only simple case conversion is assumed.
* The JSON values handled by the webhook are modelled by a mutual inductive
  `Json` / `JList` / `JObj`; Python dict keys may be any hashable scalar,
  modelled by `JKey`.
* Fallible Python expressions (attribute errors, key errors, iteration over
  non-iterables) are modelled in the `Except Unit` monad; an uncaught
  exception in the handler corresponds to an HTTP 500 response.
* The persisted file is modelled by `FileState`; the `json` stdlib
  serializer is modelled at the level of JSON values (text layer elided),
  including its coercion of non-string dict keys to strings.
* `hashlib`/`hmac` are modelled by an executable SHA-256 and HMAC over byte
  lists (`Nat`s below 256), and `base64.b64encode` by an executable encoder.
-/

/-! ## Python string primitives -/

/-- Characters stripped by Python `str.strip()` (the `str.isspace` set). -/
def pyIsSpace (c : Char) : Bool :=
  c == ' ' || c == '\t' || c == '\n' || c == '\r' ||
  c.toNat == 11 || c.toNat == 12 ||
  (28 ≤ c.toNat && c.toNat ≤ 31) ||
  c.toNat == 133 || c.toNat == 160 || c.toNat == 0x1680 ||
  (0x2000 ≤ c.toNat && c.toNat ≤ 0x200a) ||
  c.toNat == 0x2028 || c.toNat == 0x2029 ||
  c.toNat == 0x202f || c.toNat == 0x205f || c.toNat == 0x3000

/-- Left strip, on character lists. -/
def lstripL (l : List Char) : List Char := l.dropWhile pyIsSpace

/-- Right strip, on character lists. -/
def rstripL (l : List Char) : List Char := (l.reverse.dropWhile pyIsSpace).reverse

/-- Python `str.strip()`, on character lists. -/
def stripL (l : List Char) : List Char := rstripL (lstripL l)

/-- Python `str.strip()`. -/
def pyStrip (s : String) : String := ⟨stripL s.data⟩

/-- Python `str.lower()` (ASCII-range case conversion). -/
def pyLower (s : String) : String := ⟨s.data.map Char.toLower⟩

/-- The preprocessing `raw.replace("　", " ")` of main.py line 118: the
full-width space U+3000 is replaced by an ordinary space. -/
def replaceFullWidth (s : String) : String :=
  ⟨s.data.map (fun c => if c == '　' then ' ' else c)⟩

/-- Helper for `splitCommas`: accumulates the current piece (reversed). -/
def splitCommasAux : List Char → List Char → List (List Char)
  | [], acc => [acc.reverse]
  | c :: rest, acc =>
    if c == ',' then acc.reverse :: splitCommasAux rest []
    else splitCommasAux rest (c :: acc)

/-- Python `text.split(",")`: the empty string yields one empty piece. -/
def splitCommas (l : List Char) : List (List Char) := splitCommasAux l []

/-- Python `s.startswith(c)` for a one-character pattern. -/
def pyStartsWith (s : String) (c : Char) : Bool :=
  match s.data with
  | [] => false
  | d :: _ => d == c

/-- Python `s.split(" ", 1)[0]`: everything before the first space. -/
def firstTok (s : String) : String := ⟨s.data.takeWhile (fun c => !(c == ' '))⟩

/-- Python `s[1:]`: drop the first character. -/
def strDrop1 (s : String) : String := ⟨s.data.drop 1⟩

/-! ## normalize_keywords (main.py lines 33-43) -/

/-- The dedup loop of `normalize_keywords`: `seen` is the set of lowered
keys already emitted (a list used as a set), `out` the output so far. -/
def dedupLoop : List String → List String → List String → List String
  | [], _, out => out
  | it :: rest, seen, out =>
    let key := pyLower it
    if seen.contains key then dedupLoop rest seen out
    else dedupLoop rest (key :: seen) (out ++ [it])

/-- The list `raw` of `normalize_keywords`: split on commas, strip each
piece, keep the nonempty ones. -/
def rawPieces (text : String) : List String :=
  (((splitCommas text.data).map stripL).filter (fun p => !p.isEmpty)).map
    (fun p => (⟨p⟩ : String))

/-- `normalize_keywords` of main.py lines 33-43. -/
def normalize_keywords (text : String) : List String :=
  dedupLoop (rawPieces text) [] []

/-! ## Typed view of the message-command interpreter (main.py lines 115-175)

The per-user store, as the webhook code manipulates it for well-typed
records, maps a user id to its ordered keyword list.  Python dict update
semantics (replace in place, insert at the end) are modelled on an
insertion-ordered association list. -/

abbrev UsersMap := List (String × List String)

/-- Python `users.get(user_id, {"keywords": []})["keywords"]` for a
well-typed store: the user's list, or `[]` for an unknown user. -/
def getOrCreate : UsersMap → String → List String
  | [], _ => []
  | (u, ks) :: rest, uid => if u = uid then ks else getOrCreate rest uid

/-- Python `users[user_id] = u`: replace in place, or append a new key. -/
def setUser : UsersMap → String → List String → UsersMap
  | [], uid, ks => [(uid, ks)]
  | (u, v) :: rest, uid, ks =>
    if u = uid then (uid, ks) :: rest else (u, v) :: setUser rest uid ks

/-- The add loop of main.py lines 132-138.  The incrementally maintained
set `before` of lowered keywords always equals the set of lowered entries
of the current list, so membership is tested against the current list. -/
def addLoop : List String → List String → List String → List String × List String
  | [], ks, added => (ks, added)
  | k :: rest, ks, added =>
    if (ks.map pyLower).contains (pyLower k) then addLoop rest ks added
    else addLoop rest (ks ++ [k]) (added ++ [k])

/-- Python `', '.join(l)`. -/
def joinComma (l : List String) : String := String.intercalate ", " l

/-- Reply text of the add command (main.py lines 141-144). -/
def addReplyText (added ks : List String) : String :=
  "登録しました：" ++ (if added.isEmpty then "（新規なし）" else joinComma added) ++
  "\n現在のキーワード：" ++ (if joinComma ks = "" then "（なし）" else joinComma ks)

/-- Reply text of the remove command (main.py lines 158-161). -/
def removeReplyText (removed ks : List String) : String :=
  "削除しました：" ++ (if removed.isEmpty then "（該当なし）" else joinComma removed) ++
  "\n現在のキーワード：" ++ (if joinComma ks = "" then "（なし）" else joinComma ks)

/-- Reply text of the list command (main.py line 170). -/
def listReplyText (ks : List String) : String :=
  "現在のキーワード：" ++ (if joinComma ks = "" then "（なし）" else joinComma ks)

/-- Reply text of the echo fallback (main.py line 175), for string-typed
text and user id. -/
def echoReplyText (text uid : String) : String :=
  "受け取りました：" ++ text ++ "\nあなたのuserId: " ++ uid

/-- Outcome of one message event on a well-typed store: the updated store,
whether `save_users` was called, and the reply text sent. -/
structure MsgResult where
  users : UsersMap
  saved : Bool
  reply : String
deriving DecidableEq

/-- The message-command interpreter of main.py lines 115-175, for a
well-typed store and a string message text: preprocessing (full-width
spaces, strip, lower), then dispatch to add / remove / list / echo. -/
def handleMessage (users : UsersMap) (userId : String) (text : String) : MsgResult :=
  let cmd := pyStrip (replaceFullWidth text)
  let cmdLower := pyLower cmd
  let first := if cmdLower = "" then "" else firstTok cmdLower
  let ks := getOrCreate users userId
  if pyStartsWith cmdLower '+' then
    let kws := normalize_keywords (strDrop1 cmd)
    let res := addLoop kws ks []
    ⟨setUser users userId res.1, true, addReplyText res.2 res.1⟩
  else if pyStartsWith cmdLower '-' then
    let kws := normalize_keywords (strDrop1 cmd)
    let toRemove := kws.map pyLower
    let newKs := ks.filter (fun k => !(toRemove.contains (pyLower k)))
    let removed := ks.filter (fun k => toRemove.contains (pyLower k))
    ⟨setUser users userId newKs, true, removeReplyText removed newKs⟩
  else if first ∈ (["list", "keywords", "キーワード"] : List String) then
    ⟨users, false, listReplyText ks⟩
  else
    ⟨users, false, echoReplyText text userId⟩

/-! ## Characterization of the dedup loop (for C3) -/

/-- Accumulator-free form of `dedupLoop`. -/
def dedupSpec : List String → List String → List String
  | [], _ => []
  | it :: rest, seen =>
    if seen.contains (pyLower it) then dedupSpec rest seen
    else it :: dedupSpec rest (pyLower it :: seen)

theorem dedupLoop_eq (r : List String) : ∀ seen out,
    dedupLoop r seen out = out ++ dedupSpec r seen := by
  induction r with
  | nil => intro seen out; simp [dedupLoop, dedupSpec]
  | cons it rest ih =>
    intro seen out
    by_cases h : pyLower it ∈ seen <;> simp [dedupLoop, dedupSpec, h, ih]

theorem dedupSpec_sublist (r : List String) : ∀ seen,
    List.Sublist (dedupSpec r seen) r := by
  induction r with
  | nil => intro seen; simp [dedupSpec]
  | cons it rest ih =>
    intro seen
    by_cases h : pyLower it ∈ seen
    · simp only [dedupSpec, if_pos (List.elem_iff.mpr h)]
      exact (ih seen).trans (List.sublist_cons_self it rest)
    · simp only [dedupSpec, if_neg (fun hc => h (List.elem_iff.mp hc))]
      exact (ih (pyLower it :: seen)).cons₂ it

theorem dedupSpec_filter (r : List String) : ∀ (seen : List String) (key : String),
    (dedupSpec r seen).filter (fun t => pyLower t == key)
      = if key ∈ seen then []
        else (r.filter (fun t => pyLower t == key)).take 1 := by
  induction r with
  | nil => intro seen key; by_cases h : key ∈ seen <;> simp [dedupSpec, h]
  | cons it rest ih =>
    intro seen key
    by_cases h : pyLower it ∈ seen
    · simp only [dedupSpec, if_pos (List.elem_iff.mpr h)]
      rw [ih seen key]
      by_cases hk : key ∈ seen
      · simp [hk]
      · have hne : (pyLower it == key) = false := by
          simp only [beq_eq_false_iff_ne, ne_eq]
          intro he; exact hk (he ▸ h)
        rw [if_neg hk, if_neg hk, List.filter_cons, hne]
        simp
    · simp only [dedupSpec, if_neg (fun hc => h (List.elem_iff.mp hc))]
      by_cases he : pyLower it = key
      · have hpos : (pyLower it == key) = true := by simp [he]
        rw [List.filter_cons, hpos, if_pos rfl, ih]
        have h1 : key ∈ pyLower it :: seen := by
          rw [← he]; exact List.mem_cons_self _ _
        have h2 : ¬(key ∈ seen) := fun hx => h (he ▸ hx)
        rw [if_pos h1, if_neg h2, List.filter_cons, hpos, if_pos rfl]
        simp
      · have hne : (pyLower it == key) = false := by
          simp only [beq_eq_false_iff_ne, ne_eq]; exact he
        rw [List.filter_cons, hne, if_neg (by simp), ih]
        have hmem : key ∈ pyLower it :: seen ↔ key ∈ seen := by
          constructor
          · intro hx
            rcases List.mem_cons.mp hx with h1 | h1
            · exact absurd h1.symm he
            · exact h1
          · intro hx; exact List.mem_cons_of_mem _ hx
        by_cases hk : key ∈ seen
        · rw [if_pos (hmem.mpr hk), if_pos hk]
        · rw [if_neg (fun hx => hk (hmem.mp hx)), if_neg hk, List.filter_cons, hne,
            if_neg (by simp)]

theorem dedupSpec_lower_fresh (r : List String) : ∀ (seen : List String) (x : String),
    x ∈ dedupSpec r seen → pyLower x ∉ seen := by
  induction r with
  | nil => intro seen x hx; simp [dedupSpec] at hx
  | cons it rest ih =>
    intro seen x hx
    by_cases h : pyLower it ∈ seen
    · rw [dedupSpec, if_pos (List.elem_iff.mpr h)] at hx
      exact ih seen x hx
    · rw [dedupSpec, if_neg (fun hc => h (List.elem_iff.mp hc))] at hx
      rcases List.mem_cons.mp hx with h1 | h1
      · subst h1; exact h
      · intro hmem
        exact ih (pyLower it :: seen) x h1 (List.mem_cons_of_mem _ hmem)

theorem dedupSpec_lower_nodup (r : List String) : ∀ seen : List String,
    ((dedupSpec r seen).map pyLower).Nodup := by
  induction r with
  | nil => intro seen; simp [dedupSpec]
  | cons it rest ih =>
    intro seen
    by_cases h : pyLower it ∈ seen
    · rw [dedupSpec, if_pos (List.elem_iff.mpr h)]; exact ih seen
    · rw [dedupSpec, if_neg (fun hc => h (List.elem_iff.mp hc))]
      simp only [List.map_cons, List.nodup_cons]
      refine ⟨?_, ih _⟩
      intro hmem
      rcases List.mem_map.mp hmem with ⟨x, hx, hlx⟩
      exact dedupSpec_lower_fresh rest _ x hx (hlx ▸ List.mem_cons_self _ _)

theorem normalize_lower_nodup (text : String) :
    ((normalize_keywords text).map pyLower).Nodup := by
  rw [normalize_keywords, dedupLoop_eq]
  simpa using dedupSpec_lower_nodup (rawPieces text) []

/-- C3: `normalize_keywords` splits on commas, trims each piece, and drops
empty pieces (the list `rawPieces`), then deduplicates by the case-folded
key: the result is a subsequence of the pieces, and for every case-folded
key it retains exactly the first piece carrying that key (hence keeps the
original casing and the first-seen order).  The empty string yields the
empty list, and `normalize_keywords "a, b , c ,a" = ["a", "b", "c"]`. -/
theorem spec_C3_normalize_keywords :
    (∀ text : String,
        List.Sublist (normalize_keywords text) (rawPieces text) ∧
        ∀ key : String,
          (normalize_keywords text).filter (fun t => pyLower t == key)
            = ((rawPieces text).filter (fun t => pyLower t == key)).take 1) ∧
    normalize_keywords "" = [] ∧
    normalize_keywords "a, b , c ,a" = ["a", "b", "c"] := by
  refine ⟨fun text => ⟨?_, fun key => ?_⟩, by decide, by decide⟩
  · rw [normalize_keywords, dedupLoop_eq]
    simpa using dedupSpec_sublist (rawPieces text) []
  · rw [normalize_keywords, dedupLoop_eq]
    simp only [List.nil_append]
    rw [dedupSpec_filter]
    simp

/-! ## Characterization of the add loop (for C1, C6, C10) -/

/-- The subset of `kws` whose case-folded form does not yet occur in `ks`:
per the dispatch of the add command, these are the keywords appended. -/
def freshOnly (ks kws : List String) : List String :=
  kws.filter (fun k => !((ks.map pyLower).contains (pyLower k)))

theorem contains_eq_decide_mem (l : List String) (y : String) :
    l.contains y = decide (y ∈ l) := List.elem_eq_mem y l

theorem addLoop_spec (kws : List String) : ∀ ks added : List String,
    ((kws.map pyLower).Nodup) →
    addLoop kws ks added = (ks ++ freshOnly ks kws, added ++ freshOnly ks kws) := by
  induction kws with
  | nil => intro ks added _; simp [addLoop, freshOnly]
  | cons k rest ih =>
    intro ks added h
    rw [List.map_cons] at h
    have hnd : (rest.map pyLower).Nodup := (List.nodup_cons.mp h).2
    have hhd : pyLower k ∉ rest.map pyLower := (List.nodup_cons.mp h).1
    by_cases hc : pyLower k ∈ ks.map pyLower
    · have hb : ((ks.map pyLower).contains (pyLower k)) = true := List.elem_iff.mpr hc
      rw [addLoop, if_pos hb, ih _ _ hnd]
      have hskip : freshOnly ks (k :: rest) = freshOnly ks rest := by
        unfold freshOnly
        rw [List.filter_cons]
        have hcond : (!((ks.map pyLower).contains (pyLower k))) = false := by
          rw [hb]; rfl
        rw [hcond]
        simp
      rw [hskip]
    · have hb : ((ks.map pyLower).contains (pyLower k)) = false :=
        eq_false_of_ne_true (fun hx => hc (List.elem_iff.mp hx))
      rw [addLoop, if_neg (fun hx => by rw [hb] at hx; exact Bool.noConfusion hx),
        ih _ _ hnd]
      have hfeq : freshOnly (ks ++ [k]) rest = freshOnly ks rest := by
        apply List.filter_congr
        intro x hx
        have hxk : pyLower x ≠ pyLower k := by
          intro he; exact hhd (he ▸ List.mem_map_of_mem pyLower hx)
        have hcc : ((ks ++ [k]).map pyLower).contains (pyLower x)
            = (ks.map pyLower).contains (pyLower x) := by
          rw [contains_eq_decide_mem, contains_eq_decide_mem, decide_eq_decide]
          simp [List.map_append, hxk]
        rw [hcc]
      have hcons : freshOnly ks (k :: rest) = k :: freshOnly ks rest := by
        unfold freshOnly
        rw [List.filter_cons]
        have hcond : (!((ks.map pyLower).contains (pyLower k))) = true := by
          rw [hb]; rfl
        rw [hcond, if_pos rfl]
      rw [hfeq, hcons]
      simp

/-! ## Branch lemmas for the message dispatch -/

/-- Entries of `ks` kept by the remove command: those whose case-folded
form is not in the removal set built from `kws`. -/
def keptOf (ks kws : List String) : List String :=
  ks.filter (fun k => !((kws.map pyLower).contains (pyLower k)))

/-- Entries of `ks` removed by the remove command, in pre-removal order. -/
def removedOf (ks kws : List String) : List String :=
  ks.filter (fun k => (kws.map pyLower).contains (pyLower k))

theorem startsWith_ne (s : String) (c d : Char) (h : pyStartsWith s c = true)
    (hne : d ≠ c) : pyStartsWith s d = false := by
  cases hd : s.data with
  | nil => simp [pyStartsWith, hd]
  | cons x t =>
    simp only [pyStartsWith, hd] at h ⊢
    have hx : x = c := by simpa using h
    subst hx
    simp [beq_eq_false_iff_ne]
    exact fun he => hne he.symm

theorem handleMessage_add (users : UsersMap) (uid text : String)
    (h : pyStartsWith (pyLower (pyStrip (replaceFullWidth text))) '+' = true) :
    handleMessage users uid text =
      ⟨setUser users uid (getOrCreate users uid ++
          freshOnly (getOrCreate users uid)
            (normalize_keywords (strDrop1 (pyStrip (replaceFullWidth text))))),
        true,
        addReplyText
          (freshOnly (getOrCreate users uid)
            (normalize_keywords (strDrop1 (pyStrip (replaceFullWidth text)))))
          (getOrCreate users uid ++
            freshOnly (getOrCreate users uid)
              (normalize_keywords (strDrop1 (pyStrip (replaceFullWidth text)))))⟩ := by
  simp only [handleMessage]
  rw [if_pos h,
    addLoop_spec _ _ _ (normalize_lower_nodup (strDrop1 (pyStrip (replaceFullWidth text))))]
  simp

theorem handleMessage_remove (users : UsersMap) (uid text : String)
    (h : pyStartsWith (pyLower (pyStrip (replaceFullWidth text))) '-' = true) :
    handleMessage users uid text =
      ⟨setUser users uid
          (keptOf (getOrCreate users uid)
            (normalize_keywords (strDrop1 (pyStrip (replaceFullWidth text))))),
        true,
        removeReplyText
          (removedOf (getOrCreate users uid)
            (normalize_keywords (strDrop1 (pyStrip (replaceFullWidth text)))))
          (keptOf (getOrCreate users uid)
            (normalize_keywords (strDrop1 (pyStrip (replaceFullWidth text)))))⟩ := by
  have hplus : pyStartsWith (pyLower (pyStrip (replaceFullWidth text))) '+' = false :=
    startsWith_ne _ '-' '+' h (by decide)
  simp only [handleMessage]
  rw [if_neg (fun hx => by rw [hplus] at hx; exact Bool.noConfusion hx), if_pos h]
  simp [keptOf, removedOf]

theorem ifguard_firstTok (s : String) :
    (if s = "" then "" else firstTok s) = firstTok s := by
  by_cases h : s = ""
  · subst h; rfl
  · rw [if_neg h]

theorem not_startsWith_of_firstTok_mem (s : String) (c : Char)
    (hc : (c == ' ') = false) (hcl : ¬c = 'l') (hck : ¬c = 'k') (hcj : ¬c = 'キ')
    (h : firstTok s ∈ (["list", "keywords", "キーワード"] : List String)) :
    pyStartsWith s c = false := by
  cases hd : s.data with
  | nil => simp [pyStartsWith, hd]
  | cons x t =>
    simp only [pyStartsWith, hd]
    by_cases hxc : x = c
    · subst hxc
      exfalso
      have hft : (firstTok s).data = x :: t.takeWhile (fun ch => !(ch == ' ')) := by
        simp [firstTok, hd, List.takeWhile_cons, hc]
      simp only [List.mem_cons, List.not_mem_nil, or_false] at h
      rcases h with h1 | h1 | h1
      · have h2 := congrArg String.data h1
        rw [hft] at h2
        have h3 : ("list" : String).data = ['l', 'i', 's', 't'] := rfl
        rw [h3] at h2
        injection h2 with hx _
        exact hcl hx
      · have h2 := congrArg String.data h1
        rw [hft] at h2
        have h3 : ("keywords" : String).data
            = ['k', 'e', 'y', 'w', 'o', 'r', 'd', 's'] := rfl
        rw [h3] at h2
        injection h2 with hx _
        exact hck hx
      · have h2 := congrArg String.data h1
        rw [hft] at h2
        have h3 : ("キーワード" : String).data = ['キ', 'ー', 'ワ', 'ー', 'ド'] := rfl
        rw [h3] at h2
        injection h2 with hx _
        exact hcj hx
    · simp [hxc]

theorem handleMessage_list (users : UsersMap) (uid text : String)
    (h : firstTok (pyLower (pyStrip (replaceFullWidth text)))
          ∈ (["list", "keywords", "キーワード"] : List String)) :
    handleMessage users uid text = ⟨users, false, listReplyText (getOrCreate users uid)⟩ := by
  have hplus : pyStartsWith (pyLower (pyStrip (replaceFullWidth text))) '+' = false :=
    not_startsWith_of_firstTok_mem _ '+' (by decide) (by decide) (by decide) (by decide) h
  have hminus : pyStartsWith (pyLower (pyStrip (replaceFullWidth text))) '-' = false :=
    not_startsWith_of_firstTok_mem _ '-' (by decide) (by decide) (by decide) (by decide) h
  simp only [handleMessage]
  rw [if_neg (fun hx => by rw [hplus] at hx; exact Bool.noConfusion hx),
    if_neg (fun hx => by rw [hminus] at hx; exact Bool.noConfusion hx),
    ifguard_firstTok, if_pos h]

theorem getOrCreate_setUser (users : UsersMap) (uid : String) (ks : List String) :
    getOrCreate (setUser users uid ks) uid = ks := by
  induction users with
  | nil => simp [setUser, getOrCreate]
  | cons p rest ih =>
    by_cases h : p.1 = uid
    · simp [setUser, getOrCreate, h]
    · simpa [setUser, getOrCreate, h] using ih

/-- C1: a message whose case-folded trimmed text starts with `+` runs the
add command: the operand after the `+` is normalized, the keywords whose
case-folded form is not yet in the user's list are appended (original
casing, original order: `freshOnly` is a filter of the normalized operand),
the full store is persisted (`saved = true`), and the reply reports the
appended subset.  Adding `"+X, y"` then `"+x, Z"` for one user ends with
the list `["X", "y", "Z"]`. -/
theorem spec_C1_add_command :
    (∀ (users : UsersMap) (uid text : String),
        pyStartsWith (pyLower (pyStrip (replaceFullWidth text))) '+' = true →
        handleMessage users uid text =
          ⟨setUser users uid (getOrCreate users uid ++
              freshOnly (getOrCreate users uid)
                (normalize_keywords (strDrop1 (pyStrip (replaceFullWidth text))))),
            true,
            addReplyText
              (freshOnly (getOrCreate users uid)
                (normalize_keywords (strDrop1 (pyStrip (replaceFullWidth text)))))
              (getOrCreate users uid ++
                freshOnly (getOrCreate users uid)
                  (normalize_keywords (strDrop1 (pyStrip (replaceFullWidth text)))))⟩) ∧
    getOrCreate (handleMessage (handleMessage [] "u" "+X, y").users "u" "+x, Z").users "u"
      = ["X", "y", "Z"] := by
  refine ⟨fun users uid text h => handleMessage_add users uid text h, by decide⟩

theorem spec_C1_add_command_witness :
    pyStartsWith (pyLower (pyStrip (replaceFullWidth "+X, y"))) '+' = true ∧
    handleMessage [] "u" "+X, y"
      = ⟨[("u", ["X", "y"])], true, "登録しました：X, y\n現在のキーワード：X, y"⟩ := by
  constructor
  · decide
  · rw [spec_C1_add_command.1 [] "u" "+X, y" (by decide)]
    decide

/-- C2: a message whose case-folded trimmed text starts with `-` runs the
remove command: the operand is normalized into a case-insensitive removal
set, exactly the entries of the user's list whose case-folded form is in
that set are removed (`keptOf`/`removedOf` are filters of the pre-removal
list, so the removed subset is reported in pre-removal order), and the
store is persisted.  Removing `"-X"` from `["X","y","Z"]` yields
`["y","Z"]` and reports `X`. -/
theorem spec_C2_remove_command :
    (∀ (users : UsersMap) (uid text : String),
        pyStartsWith (pyLower (pyStrip (replaceFullWidth text))) '-' = true →
        handleMessage users uid text =
          ⟨setUser users uid
              (keptOf (getOrCreate users uid)
                (normalize_keywords (strDrop1 (pyStrip (replaceFullWidth text))))),
            true,
            removeReplyText
              (removedOf (getOrCreate users uid)
                (normalize_keywords (strDrop1 (pyStrip (replaceFullWidth text)))))
              (keptOf (getOrCreate users uid)
                (normalize_keywords (strDrop1 (pyStrip (replaceFullWidth text)))))⟩) ∧
    handleMessage [("u", ["X", "y", "Z"])] "u" "-X"
      = ⟨[("u", ["y", "Z"])], true, "削除しました：X\n現在のキーワード：y, Z"⟩ := by
  refine ⟨fun users uid text h => handleMessage_remove users uid text h, by decide⟩

theorem spec_C2_remove_command_witness :
    pyStartsWith (pyLower (pyStrip (replaceFullWidth "-X"))) '-' = true ∧
    handleMessage [("u", ["X", "y", "Z"])] "u" "-X"
      = ⟨[("u", ["y", "Z"])], true, "削除しました：X\n現在のキーワード：y, Z"⟩ := by
  constructor
  · decide
  · rw [spec_C2_remove_command.1 [("u", ["X", "y", "Z"])] "u" "-X" (by decide)]
    decide

theorem contains_eq_true_of_mem {l : List String} {a : String} (h : a ∈ l) :
    l.contains a = true := List.elem_iff.mpr h

/-- C6: if a user's keyword list has no two entries equal up to case
folding, the list produced by an add or a remove command also has none,
and the surviving old entries appear in both lists in the same order
(the common entries of the old and new lists, each filtered by membership
in the other, agree). -/
theorem spec_C6_case_insensitive_invariant :
    ∀ (users : UsersMap) (uid text : String),
      ((getOrCreate users uid).map pyLower).Nodup →
      (pyStartsWith (pyLower (pyStrip (replaceFullWidth text))) '+' = true ∨
        pyStartsWith (pyLower (pyStrip (replaceFullWidth text))) '-' = true) →
      ((getOrCreate (handleMessage users uid text).users uid).map pyLower).Nodup ∧
        (getOrCreate (handleMessage users uid text).users uid).filter
            (fun k => (getOrCreate users uid).contains k)
          = (getOrCreate users uid).filter
              (fun k => (getOrCreate (handleMessage users uid text).users uid).contains k) := by
  intro users uid text hnd hcmd
  rcases hcmd with h | h
  · rw [handleMessage_add users uid text h]
    dsimp only
    rw [getOrCreate_setUser]
    have hA_sub : List.Sublist
        ((freshOnly (getOrCreate users uid)
          (normalize_keywords (strDrop1 (pyStrip (replaceFullWidth text))))).map pyLower)
        ((normalize_keywords (strDrop1 (pyStrip (replaceFullWidth text)))).map pyLower) :=
      List.Sublist.map pyLower (List.filter_sublist _)
    have hAnd := List.Sublist.nodup hA_sub (normalize_lower_nodup _)
    have hdisj : ((getOrCreate users uid).map pyLower).Disjoint
        ((freshOnly (getOrCreate users uid)
          (normalize_keywords (strDrop1 (pyStrip (replaceFullWidth text))))).map pyLower) := by
      intro a ha hA
      rcases List.mem_map.mp hA with ⟨x, hxA, hxe⟩
      obtain ⟨hxkws, hxc⟩ := List.mem_filter.mp hxA
      have hnm : pyLower x ∉ (getOrCreate users uid).map pyLower := by
        intro hm
        rw [contains_eq_true_of_mem hm] at hxc
        exact Bool.noConfusion hxc
      exact hnm (hxe ▸ ha)
    constructor
    · rw [List.map_append]
      exact List.Nodup.append hnd hAnd hdisj
    · rw [List.filter_append]
      have h1 : (getOrCreate users uid).filter
          (fun k => (getOrCreate users uid).contains k) = getOrCreate users uid :=
        List.filter_eq_self.mpr (fun a ha => List.elem_iff.mpr ha)
      have h2 : (freshOnly (getOrCreate users uid)
            (normalize_keywords (strDrop1 (pyStrip (replaceFullWidth text))))).filter
          (fun k => (getOrCreate users uid).contains k) = [] := by
        apply List.filter_eq_nil_iff.mpr
        intro a haA hc
        obtain ⟨_, hac⟩ := List.mem_filter.mp haA
        rw [contains_eq_true_of_mem (List.mem_map_of_mem pyLower (List.elem_iff.mp hc))] at hac
        exact Bool.noConfusion hac
      have h3 : (getOrCreate users uid).filter
          (fun k => ((getOrCreate users uid ++
            freshOnly (getOrCreate users uid)
              (normalize_keywords (strDrop1 (pyStrip (replaceFullWidth text))))).contains k))
          = getOrCreate users uid :=
        List.filter_eq_self.mpr
          (fun a ha => List.elem_iff.mpr (List.mem_append_left _ ha))
      rw [h1, h2, h3, List.append_nil]
  · rw [handleMessage_remove users uid text h]
    dsimp only
    rw [getOrCreate_setUser]
    have hkept_sub : List.Sublist
        (keptOf (getOrCreate users uid)
          (normalize_keywords (strDrop1 (pyStrip (replaceFullWidth text)))))
        (getOrCreate users uid) := List.filter_sublist _
    constructor
    · exact List.Sublist.nodup (List.Sublist.map pyLower hkept_sub) hnd
    · have h1 : (keptOf (getOrCreate users uid)
            (normalize_keywords (strDrop1 (pyStrip (replaceFullWidth text))))).filter
          (fun k => (getOrCreate users uid).contains k)
          = keptOf (getOrCreate users uid)
              (normalize_keywords (strDrop1 (pyStrip (replaceFullWidth text)))) :=
        List.filter_eq_self.mpr
          (fun a ha => List.elem_iff.mpr (List.mem_filter.mp ha).1)
      have h2 : (getOrCreate users uid).filter
          (fun k => (keptOf (getOrCreate users uid)
            (normalize_keywords (strDrop1 (pyStrip (replaceFullWidth text))))).contains k)
          = (getOrCreate users uid).filter
              (fun k => !(((normalize_keywords
                (strDrop1 (pyStrip (replaceFullWidth text)))).map pyLower).contains
                  (pyLower k))) := by
        apply List.filter_congr
        intro x hx
        by_cases hp : (!(((normalize_keywords
            (strDrop1 (pyStrip (replaceFullWidth text)))).map pyLower).contains
              (pyLower x))) = true
        · rw [hp]
          exact List.elem_iff.mpr (List.mem_filter.mpr ⟨hx, hp⟩)
        · rw [eq_false_of_ne_true hp]
          apply eq_false_of_ne_true
          intro hc
          exact hp (List.mem_filter.mp (List.elem_iff.mp hc)).2
      rw [h1, h2]
      rfl

/-- C9: a message whose first whitespace-delimited token of the case-folded
trimmed text is one of the fixed synonyms `list` / `keywords` /
`キーワード` takes the list branch: the store is unchanged, no save is
performed, and running the command twice in a row on the same state yields
the same reply text both times. -/
theorem spec_C9_list_no_mutation :
    ∀ (users : UsersMap) (uid text : String),
      firstTok (pyLower (pyStrip (replaceFullWidth text)))
          ∈ (["list", "keywords", "キーワード"] : List String) →
      handleMessage users uid text
          = ⟨users, false, listReplyText (getOrCreate users uid)⟩ ∧
        (handleMessage (handleMessage users uid text).users uid text).reply
          = (handleMessage users uid text).reply := by
  intro users uid text h
  have h1 := handleMessage_list users uid text h
  refine ⟨h1, ?_⟩
  rw [h1]
  dsimp only
  rw [h1]

theorem spec_C9_list_no_mutation_witness :
    firstTok (pyLower (pyStrip (replaceFullWidth "LIST of things")))
        ∈ (["list", "keywords", "キーワード"] : List String) ∧
      (handleMessage [("u", ["X", "y"])] "u" "LIST of things"
          = ⟨[("u", ["X", "y"])], false,
              listReplyText (getOrCreate [("u", ["X", "y"])] "u")⟩ ∧
        (handleMessage
            (handleMessage [("u", ["X", "y"])] "u" "LIST of things").users
            "u" "LIST of things").reply
          = (handleMessage [("u", ["X", "y"])] "u" "LIST of things").reply) :=
  ⟨by decide, spec_C9_list_no_mutation [("u", ["X", "y"])] "u" "LIST of things" (by decide)⟩

/-! ## Strip lemmas (for C10) -/

theorem dropWhile_length_le (p : Char → Bool) (l : List Char) :
    (l.dropWhile p).length ≤ l.length := by
  induction l with
  | nil => simp
  | cons x t ih =>
    rw [List.dropWhile_cons]
    by_cases h : p x = true
    · rw [if_pos h]; exact ih.trans (Nat.le_succ _)
    · rw [if_neg h]

theorem dropWhile_eq_self_of_length (p : Char → Bool) (l : List Char)
    (h : (l.dropWhile p).length = l.length) : l.dropWhile p = l := by
  cases l with
  | nil => rfl
  | cons x t =>
    rw [List.dropWhile_cons] at h ⊢
    by_cases hp : p x = true
    · rw [if_pos hp] at h
      have := dropWhile_length_le p t
      simp only [List.length_cons] at h
      omega
    · rw [if_neg hp]

theorem dropWhile_head_false (p : Char → Bool) (y : Char) (r : List Char)
    (h : (y :: r).dropWhile p = y :: r) : p y = false := by
  by_cases hp : p y = true
  · rw [List.dropWhile_cons, if_pos hp] at h
    have hle := dropWhile_length_le p r
    have := congrArg List.length h
    simp only [List.length_cons] at this
    omega
  · exact eq_false_of_ne_true hp

theorem strip_parts_of_strip_eq_self (l : List Char) (h : stripL l = l) :
    lstripL l = l ∧ rstripL l = l := by
  have hlen := congrArg List.length h
  have h1 : (rstripL (lstripL l)).length ≤ (lstripL l).length := by
    unfold rstripL
    rw [List.length_reverse]
    exact (dropWhile_length_le pyIsSpace _).trans (by rw [List.length_reverse])
  have h2 : (lstripL l).length ≤ l.length := dropWhile_length_le pyIsSpace l
  unfold stripL at hlen
  have hl : lstripL l = l := by
    unfold lstripL
    apply dropWhile_eq_self_of_length
    unfold lstripL at h1 h2 hlen
    omega
  refine ⟨hl, ?_⟩
  unfold stripL at h
  rw [hl] at h
  exact h

theorem rstrip_cons (c : Char) (l : List Char) (hl : rstripL l = l) (hne : l ≠ []) :
    rstripL (c :: l) = c :: l := by
  have hrev : l.reverse.dropWhile pyIsSpace = l.reverse := by
    have := congrArg List.reverse hl
    unfold rstripL at this
    rw [List.reverse_reverse] at this
    exact this
  obtain ⟨y, r, hyr⟩ : ∃ y r, l.reverse = y :: r := by
    cases hr : l.reverse with
    | nil => exact absurd (by simpa using congrArg List.reverse hr) hne
    | cons y r => exact ⟨y, r, rfl⟩
  have hpy : pyIsSpace y = false := by
    apply dropWhile_head_false pyIsSpace y r
    rw [← hyr]
    exact hrev
  unfold rstripL
  rw [List.reverse_cons, hyr, List.cons_append, List.dropWhile_cons, hpy]
  simp only [Bool.false_eq_true, if_false]
  rw [← List.cons_append, ← hyr, ← List.reverse_cons, List.reverse_reverse]

theorem string_eq_iff_data (s t : String) : s = t ↔ s.data = t.data :=
  ⟨congrArg String.data, fun h => by cases s; cases t; exact congrArg String.mk h⟩

theorem splitCommasAux_no_comma (l : List Char) : ∀ acc : List Char,
    (∀ c ∈ l, ¬c = ',') → splitCommasAux l acc = [acc.reverse ++ l] := by
  induction l with
  | nil => intro acc _; simp [splitCommasAux]
  | cons c t ih =>
    intro acc h
    have hc : (c == ',') = false := by
      simp only [beq_eq_false_iff_ne, ne_eq]
      exact h c (List.mem_cons_self c t)
    simp only [splitCommasAux, hc, Bool.false_eq_true, if_false]
    rw [ih _ (fun x hx => h x (List.mem_cons_of_mem c hx))]
    simp

theorem normalize_single (k : String) (hs : pyStrip k = k) (hne : k ≠ "")
    (hcomma : ∀ c ∈ k.data, ¬c = ',') : normalize_keywords k = [k] := by
  have hdata : stripL k.data = k.data := congrArg String.data hs
  have hdne : k.data ≠ [] := fun hx => hne ((string_eq_iff_data k "").mpr hx)
  have hraw : rawPieces k = [k] := by
    unfold rawPieces splitCommas
    rw [splitCommasAux_no_comma k.data [] hcomma]
    simp only [List.reverse_nil, List.nil_append, List.map_cons, List.map_nil, hdata]
    have hie : k.data.isEmpty = false := by
      cases hd : k.data with
      | nil => exact absurd hd hdne
      | cons x t => rfl
    simp [List.filter_cons, hie]
  unfold normalize_keywords
  rw [hraw]
  simp [dedupLoop]

theorem preprocess_cmd (c : Char) (k : String) (hcws : pyIsSpace c = false)
    (hcfw : (c == '　') = false) (hrf : replaceFullWidth k = k)
    (hs : pyStrip k = k) (hne : k ≠ "") :
    pyStrip (replaceFullWidth ((⟨[c]⟩ : String) ++ k)) = (⟨[c]⟩ : String) ++ k := by
  apply (string_eq_iff_data _ _).mpr
  have hd1 : ((⟨[c]⟩ : String) ++ k).data = c :: k.data := rfl
  show stripL ((((⟨[c]⟩ : String) ++ k).data).map (fun ch => if ch == '　' then ' ' else ch))
      = ((⟨[c]⟩ : String) ++ k).data
  rw [hd1]
  have hkmap : k.data.map (fun ch => if ch == '　' then ' ' else ch) = k.data :=
    congrArg String.data hrf
  rw [List.map_cons, hkmap, hcfw]
  simp only [Bool.false_eq_true, if_false]
  obtain ⟨hl, hr⟩ := strip_parts_of_strip_eq_self k.data (congrArg String.data hs)
  unfold stripL lstripL
  rw [List.dropWhile_cons, hcws]
  simp only [Bool.false_eq_true, if_false]
  exact rstrip_cons c k.data hr (fun hx => hne ((string_eq_iff_data k "").mpr hx))

theorem startsWith_prefix_cmd (c : Char) (k : String) (hlc : Char.toLower c = c) :
    pyStartsWith (pyLower ((⟨[c]⟩ : String) ++ k)) c = true := by
  have hd1 : ((⟨[c]⟩ : String) ++ k).data = c :: k.data := rfl
  simp [pyStartsWith, pyLower, hd1, hlc]

/-- C10: for a user whose list satisfies the case-insensitive uniqueness
invariant and a keyword `k` (comma-free, already stripped, no full-width
space, nonempty) whose case-folded form is not in the list, sending
`"+" ++ k` and then `"-" ++ k` returns the user's keyword list to its
original value. -/
theorem spec_C10_add_then_remove :
    ∀ (users : UsersMap) (uid k : String),
      ((getOrCreate users uid).map pyLower).Nodup →
      ((getOrCreate users uid).map pyLower).contains (pyLower k) = false →
      replaceFullWidth k = k → pyStrip k = k → k ≠ "" → (∀ c ∈ k.data, ¬c = ',') →
      getOrCreate
          (handleMessage (handleMessage users uid ("+" ++ k)).users uid ("-" ++ k)).users
          uid
        = getOrCreate users uid := by
  intro users uid k hnd hfresh hrf hs hne hcomma
  have hpre1 : pyStrip (replaceFullWidth ("+" ++ k)) = "+" ++ k :=
    preprocess_cmd '+' k (by decide) (by decide) hrf hs hne
  have hsw1 : pyStartsWith (pyLower (pyStrip (replaceFullWidth ("+" ++ k)))) '+' = true := by
    rw [hpre1]
    exact startsWith_prefix_cmd '+' k (by decide)
  rw [handleMessage_add users uid ("+" ++ k) hsw1]
  dsimp only
  have hop1 : strDrop1 (pyStrip (replaceFullWidth ("+" ++ k))) = k := by
    rw [hpre1]; rfl
  rw [hop1, normalize_single k hs hne hcomma]
  have hnm : pyLower k ∉ (getOrCreate users uid).map pyLower := fun hm => by
    rw [contains_eq_true_of_mem hm] at hfresh
    exact Bool.noConfusion hfresh
  have hfo : freshOnly (getOrCreate users uid) [k] = [k] := by
    unfold freshOnly
    simp only [List.filter_cons, List.filter_nil, hfresh, Bool.not_false]
    simp
  rw [hfo]
  have hpre2 : pyStrip (replaceFullWidth ("-" ++ k)) = "-" ++ k :=
    preprocess_cmd '-' k (by decide) (by decide) hrf hs hne
  have hsw2 : pyStartsWith (pyLower (pyStrip (replaceFullWidth ("-" ++ k)))) '-' = true := by
    rw [hpre2]
    exact startsWith_prefix_cmd '-' k (by decide)
  rw [handleMessage_remove _ uid ("-" ++ k) hsw2]
  dsimp only
  rw [getOrCreate_setUser]
  have hop2 : strDrop1 (pyStrip (replaceFullWidth ("-" ++ k))) = k := by
    rw [hpre2]; rfl
  rw [hop2, normalize_single k hs hne hcomma, getOrCreate_setUser]
  unfold keptOf
  rw [List.filter_append]
  have hr1 : (getOrCreate users uid).filter
      (fun x => !(([k].map pyLower).contains (pyLower x))) = getOrCreate users uid := by
    apply List.filter_eq_self.mpr
    intro a ha
    have hne2 : (pyLower a == pyLower k) = false := by
      apply beq_eq_false_iff_ne.mpr
      intro he
      have hm : pyLower k ∈ (getOrCreate users uid).map pyLower :=
        he ▸ List.mem_map_of_mem pyLower ha
      rw [contains_eq_true_of_mem hm] at hfresh
      exact Bool.noConfusion hfresh
    simp only [List.map_cons, List.map_nil, List.contains_cons, hne2]
    rfl
  have hr2 : [k].filter (fun x => !(([k].map pyLower).contains (pyLower x))) = [] := by
    simp [List.filter_cons, List.contains_cons]
  rw [hr1, hr2, List.append_nil]

theorem spec_C10_add_then_remove_witness :
    (((getOrCreate [("u", ["a"])] "u").map pyLower).Nodup ∧
      ((getOrCreate [("u", ["a"])] "u").map pyLower).contains (pyLower "B") = false ∧
      replaceFullWidth "B" = "B" ∧ pyStrip "B" = "B" ∧ "B" ≠ "" ∧
      (∀ c ∈ ("B" : String).data, ¬c = ',')) ∧
    getOrCreate
        (handleMessage (handleMessage [("u", ["a"])] "u" ("+" ++ "B")).users
          "u" ("-" ++ "B")).users "u"
      = getOrCreate [("u", ["a"])] "u" :=
  ⟨⟨by decide, by decide, by decide, by decide, by decide, by decide⟩,
    spec_C10_add_then_remove [("u", ["a"])] "u" "B" (by decide) (by decide)
      (by decide) (by decide) (by decide) (by decide)⟩

theorem spec_C6_case_insensitive_invariant_witness :
    (((getOrCreate [("u", ["X", "y"])] "u").map pyLower).Nodup ∧
      (pyStartsWith (pyLower (pyStrip (replaceFullWidth "+z, Y"))) '+' = true ∨
        pyStartsWith (pyLower (pyStrip (replaceFullWidth "+z, Y"))) '-' = true)) ∧
    (((getOrCreate (handleMessage [("u", ["X", "y"])] "u" "+z, Y").users "u").map
        pyLower).Nodup ∧
      (getOrCreate (handleMessage [("u", ["X", "y"])] "u" "+z, Y").users "u").filter
          (fun k => (getOrCreate [("u", ["X", "y"])] "u").contains k)
        = (getOrCreate [("u", ["X", "y"])] "u").filter
            (fun k =>
              (getOrCreate (handleMessage [("u", ["X", "y"])] "u" "+z, Y").users
                "u").contains k)) :=
  ⟨⟨by decide, Or.inl (by decide)⟩,
    spec_C6_case_insensitive_invariant [("u", ["X", "y"])] "u" "+z, Y"
      (by decide) (Or.inl (by decide))⟩

/-! ## SHA-256, HMAC-SHA256 and base64 (main.py lines 47-52 use the
hashlib / hmac / base64 standard-library collaborators; they are embedded
executably over byte lists, i.e. lists of naturals below 256, with 32-bit
words as naturals reduced modulo 2^32) -/

structure H8 where
  a : Nat
  b : Nat
  c : Nat
  d : Nat
  e : Nat
  f : Nat
  g : Nat
  h : Nat

def w32add (x y : Nat) : Nat := (x + y) % 4294967296
def rotr32 (k x : Nat) : Nat := x / 2 ^ k + x % 2 ^ k * 2 ^ (32 - k)
def xor3 (x y z : Nat) : Nat := (x ^^^ y) ^^^ z
def ssig0 (x : Nat) : Nat := xor3 (rotr32 7 x) (rotr32 18 x) (x / 2 ^ 3)
def ssig1 (x : Nat) : Nat := xor3 (rotr32 17 x) (rotr32 19 x) (x / 2 ^ 10)
def bsig0 (x : Nat) : Nat := xor3 (rotr32 2 x) (rotr32 13 x) (rotr32 22 x)
def bsig1 (x : Nat) : Nat := xor3 (rotr32 6 x) (rotr32 11 x) (rotr32 25 x)
def chF (e fv g : Nat) : Nat := (e &&& fv) ^^^ ((e ^^^ 4294967295) &&& g)
def majF (a b c : Nat) : Nat := ((a &&& b) ^^^ (a &&& c)) ^^^ (b &&& c)

def sha256K : List Nat :=
  [1116352408, 1899447441, 3049323471, 3921009573, 961987163,
   1508970993, 2453635748, 2870763221, 3624381080, 310598401,
   607225278, 1426881987, 1925078388, 2162078206, 2614888103,
   3248222580, 3835390401, 4022224774, 264347078, 604807628,
   770255983, 1249150122, 1555081692, 1996064986, 2554220882,
   2821834349, 2952996808, 3210313671, 3336571891, 3584528711,
   113926993, 338241895, 666307205, 773529912, 1294757372,
   1396182291, 1695183700, 1986661051, 2177026350, 2456956037,
   2730485921, 2820302411, 3259730800, 3345764771, 3516065817,
   3600352804, 4094571909, 275423344, 430227734, 506948616,
   659060556, 883997877, 958139571, 1322822218, 1537002063,
   1747873779, 1955562222, 2024104815, 2227730452, 2361852424,
   2428436474, 2756734187, 3204031479, 3329325298]

def sha256H0 : H8 :=
  ⟨1779033703, 3144134277, 1013904242, 2773480762,
   1359893119, 2600822924, 528734635, 1541459225⟩

def toWords : List Nat → List Nat
  | a :: b :: c :: d :: rest => (((a * 256 + b) * 256 + c) * 256 + d) :: toWords rest
  | _ => []

def blocks16 : List Nat → List (List Nat)
  | w1 :: w2 :: w3 :: w4 :: w5 :: w6 :: w7 :: w8 ::
      w9 :: w10 :: w11 :: w12 :: w13 :: w14 :: w15 :: w16 :: rest =>
    [w1, w2, w3, w4, w5, w6, w7, w8, w9, w10, w11, w12, w13, w14, w15, w16]
      :: blocks16 rest
  | _ => []

def scheduleStep (ws : List Nat) : List Nat :=
  w32add (w32add (ws.getD 15 0) (ssig0 (ws.getD 14 0)))
    (w32add (ws.getD 6 0) (ssig1 (ws.getD 1 0))) :: ws

def schedule (block : List Nat) : List Nat :=
  ((List.range 48).foldl (fun ws _ => scheduleStep ws) block.reverse).reverse

def sha256Round (st : H8) (kw : Nat × Nat) : H8 :=
  let t1 := w32add st.h (w32add (bsig1 st.e) (w32add (chF st.e st.f st.g) (w32add kw.1 kw.2)))
  let t2 := w32add (bsig0 st.a) (majF st.a st.b st.c)
  ⟨w32add t1 t2, st.a, st.b, st.c, w32add st.d t1, st.e, st.f, st.g⟩

def sha256Compress (st : H8) (block : List Nat) : H8 :=
  let fin := (sha256K.zip (schedule block)).foldl sha256Round st
  ⟨w32add st.a fin.a, w32add st.b fin.b, w32add st.c fin.c, w32add st.d fin.d,
   w32add st.e fin.e, w32add st.f fin.f, w32add st.g fin.g, w32add st.h fin.h⟩

def be8 (n : Nat) : List Nat :=
  [n / 2 ^ 56 % 256, n / 2 ^ 48 % 256, n / 2 ^ 40 % 256, n / 2 ^ 32 % 256,
   n / 2 ^ 24 % 256, n / 2 ^ 16 % 256, n / 2 ^ 8 % 256, n % 256]

def be4 (n : Nat) : List Nat :=
  [n / 2 ^ 24 % 256, n / 2 ^ 16 % 256, n / 2 ^ 8 % 256, n % 256]

def sha256Pad (msg : List Nat) : List Nat :=
  msg ++ 128 :: List.replicate ((64 - (msg.length + 9) % 64) % 64) 0 ++ be8 (8 * msg.length)

def sha256 (msg : List Nat) : List Nat :=
  let st := (blocks16 (toWords (sha256Pad msg))).foldl sha256Compress sha256H0
  be4 st.a ++ be4 st.b ++ be4 st.c ++ be4 st.d ++
    be4 st.e ++ be4 st.f ++ be4 st.g ++ be4 st.h

def hmacSha256 (key msg : List Nat) : List Nat :=
  let k0 := if 64 < key.length then sha256 key else key
  let kp := k0 ++ List.replicate (64 - k0.length) 0
  sha256 ((kp.map (fun b => b ^^^ 92)) ++ sha256 ((kp.map (fun b => b ^^^ 54)) ++ msg))

/-- SHA-256 of the ASCII bytes of "abc", the standard test vector; ties the
embedding to the `hashlib.sha256` collaborator. -/
theorem sha256_test_vector :
    sha256 [97, 98, 99]
      = [186, 120, 22, 191, 143, 1, 207, 234,
         65, 65, 64, 222, 93, 174, 34, 35,
         176, 3, 97, 163, 150, 23, 122, 156,
         180, 16, 255, 97, 242, 0, 21, 173] := by decide

def b64char (n : Nat) : Char :=
  ("ABCDEFGHIJKLMNOPQRSTUVWXYZabcdefghijklmnopqrstuvwxyz0123456789+/" : String).data.getD
    n 'A'

/-- `base64.b64encode`, three input bytes per four output characters. -/
def b64groups : List Nat → List Char
  | [] => []
  | [a] => [b64char (a / 4), b64char (a % 4 * 16), '=', '=']
  | [a, b] => [b64char (a / 4), b64char (a % 4 * 16 + b / 16), b64char (b % 16 * 4), '=']
  | a :: b :: c :: rest =>
    b64char (a / 4) :: b64char (a % 4 * 16 + b / 16) :: b64char (b % 16 * 4 + c / 64)
      :: b64char (c % 64) :: b64groups rest

def b64encode (l : List Nat) : String := ⟨b64groups l⟩

set_option maxRecDepth 4096 in
/-- HMAC-SHA256 of "abc" keyed by "key", base64-encoded, as the Python
expression `base64.b64encode(hmac.new(b"key", b"abc", hashlib.sha256).digest())`
produces it. -/
theorem hmac_b64_test_vector :
    b64encode (hmacSha256 [107, 101, 121] [97, 98, 99])
      = "nBluMtwBdfhvSxy4konWYZ3mvuaZ5MN45oMJ7Zehpqs=" := by decide

/-- `verify_signature` of main.py lines 47-52.  The body and the channel
secret are passed as UTF-8 byte lists (the source encodes the secret with
`.encode("utf-8")`); a missing `x-line-signature` header is `none`, and
`x_line_signature or ""` is `Option.getD`; `hmac.compare_digest` is
equality. -/
def verify_signature (body : List Nat) (x_line_signature : Option String)
    (channel_secret : List Nat) : Bool :=
  if channel_secret = [] then true
  else b64encode (hmacSha256 channel_secret body) == x_line_signature.getD ""

theorem be4_length (n : Nat) : (be4 n).length = 4 := rfl

theorem sha256_length (msg : List Nat) : (sha256 msg).length = 32 := by
  unfold sha256
  simp [be4]

theorem hmacSha256_length (key msg : List Nat) : (hmacSha256 key msg).length = 32 :=
  sha256_length _

theorem b64groups_ne_nil (a : Nat) (l : List Nat) : b64groups (a :: l) ≠ [] := by
  match l with
  | [] => simp [b64groups]
  | [b] => simp [b64groups]
  | b :: c :: rest => simp [b64groups]

/-- C4: with an empty channel secret, verification succeeds for every body
and signature; with a nonempty secret it succeeds exactly when the provided
signature equals the base64-encoded HMAC-SHA256 digest of the body keyed by
the secret, and fails when the signature header is missing. -/
theorem spec_C4_verify_signature :
    ∀ body channel_secret : List Nat,
      (channel_secret = [] →
        ∀ x_line_signature, verify_signature body x_line_signature channel_secret = true) ∧
      (channel_secret ≠ [] →
        ∀ s : String,
          (verify_signature body (some s) channel_secret = true ↔
            s = b64encode (hmacSha256 channel_secret body))) ∧
      (channel_secret ≠ [] → verify_signature body none channel_secret = false) := by
  intro body secret
  refine ⟨?_, ?_, ?_⟩
  · intro h sig
    simp [verify_signature, h]
  · intro h s
    unfold verify_signature
    rw [if_neg h]
    simp only [Option.getD_some, beq_iff_eq]
    exact ⟨fun hx => hx.symm, fun hx => hx.symm⟩
  · intro h
    unfold verify_signature
    rw [if_neg h]
    simp only [Option.getD_none]
    apply beq_eq_false_iff_ne.mpr
    have hlen := hmacSha256_length secret body
    cases hd : hmacSha256 secret body with
    | nil => rw [hd] at hlen; simp at hlen
    | cons a l =>
      intro hx
      exact b64groups_ne_nil a l (congrArg String.data hx)

theorem spec_C4_verify_signature_witness :
    (([107, 101, 121] : List Nat) = [] → False) ∧
    verify_signature [97, 98, 99] none [107, 101, 121] = false :=
  ⟨by decide, (spec_C4_verify_signature [97, 98, 99] [107, 101, 121]).2.2 (by decide)⟩

/-! ## JSON values and the persisted store (main.py lines 22-31, 82-177) -/

/-- Hashable Python scalars, usable as dict keys.  Parsed JSON objects have
only string keys; the handler can insert any hashable `userId` value. -/
inductive JKey where
  | null
  | bool (b : Bool)
  | num (n : Int)
  | str (s : String)
deriving DecidableEq

mutual
/-- A JSON value / in-memory Python value as handled by the webhook.
Numbers are integers (the payloads the handler inspects carry no
fractional values). -/
inductive Json where
  | null
  | bool (b : Bool)
  | num (n : Int)
  | str (s : String)
  | arr (xs : JList)
  | obj (kvs : JObj)
/-- A list of JSON values. -/
inductive JList where
  | nil
  | cons (hd : Json) (tl : JList)
/-- An insertion-ordered association list of key-value pairs (a Python
dict: keys unique, insertion order preserved). -/
inductive JObj where
  | nil
  | cons (k : JKey) (v : Json) (tl : JObj)
end

def JList.toList : JList → List Json
  | .nil => []
  | .cons x t => x :: JList.toList t

def JObj.lookup : JObj → JKey → Option Json
  | .nil, _ => none
  | .cons k v t, key => if k = key then some v else JObj.lookup t key

/-- Python dict assignment: replace in place, or append a new key. -/
def JObj.set : JObj → JKey → Json → JObj
  | .nil, key, v => .cons key v .nil
  | .cons k w t, key, v =>
    if k = key then .cons key v t else .cons k w (JObj.set t key v)

def JObj.all (p : JKey → Json → Bool) : JObj → Bool
  | .nil => true
  | .cons k v t => p k v && JObj.all p t

def JObj.anyB (p : JKey → Json → Bool) : JObj → Bool
  | .nil => false
  | .cons k v t => p k v || JObj.anyB p t

def JList.all (p : Json → Bool) : JList → Bool
  | .nil => true
  | .cons x t => p x && JList.all p t

def JList.anyB (p : Json → Bool) : JList → Bool
  | .nil => false
  | .cons x t => p x || JList.anyB p t

def JKey.toJson : JKey → Json
  | .null => .null
  | .bool b => .bool b
  | .num n => .num n
  | .str s => .str s

/-- Python truthiness. -/
def pyTruthy : Json → Bool
  | .null => false
  | .bool b => b
  | .num n => n != 0
  | .str s => !(s == "")
  | .arr .nil => false
  | .arr (.cons _ _) => true
  | .obj .nil => false
  | .obj (.cons _ _ _) => true

/-- Python `==` of a handled value against a string literal. -/
def Json.isStr (j : Json) (s : String) : Bool :=
  match j with
  | .str t => t == s
  | _ => false

/-- Python `d.get(key, default)`: raises (`AttributeError`) unless `d` is a
dict. -/
def pyGetD (d : Json) (key : JKey) (dflt : Json) : Except Unit Json :=
  match d with
  | .obj kvs => .ok ((kvs.lookup key).getD dflt)
  | _ => .error ()

/-- Python `d.get(key)`: `None` when the key is absent. -/
def pyGet (d : Json) (key : JKey) : Except Unit Json := pyGetD d key .null

/-- Python `d[key]`: `KeyError` when absent, `TypeError` when not a dict. -/
def pyGetItem (d : Json) (key : JKey) : Except Unit Json :=
  match d with
  | .obj kvs =>
    match kvs.lookup key with
    | some v => .ok v
    | none => .error ()
  | _ => .error ()

/-- Python `d[key] = v` for a `d` already known to be a dict (callers reach
it only after a successful dict operation on `d`); other values are
returned unchanged. -/
def pySetItem (d : Json) (key : JKey) (v : Json) : Json :=
  match d with
  | .obj kvs => .obj (kvs.set key v)
  | _ => d

/-- Python hashability check performed by dict lookup: lists and dicts
raise `TypeError` as keys. -/
def toKey (j : Json) : Except Unit JKey :=
  match j with
  | .null => .ok .null
  | .bool b => .ok (.bool b)
  | .num n => .ok (.num n)
  | .str s => .ok (.str s)
  | _ => .error ()

def JObj.keys : JObj → List JKey
  | .nil => []
  | .cons k _ t => k :: JObj.keys t

/-- Python iteration `for x in j`: lists yield their elements, strings
yield one-character strings, dicts yield their keys; other values raise
`TypeError`. -/
def pyIter (j : Json) : Except Unit (List Json) :=
  match j with
  | .arr xs => .ok xs.toList
  | .str s => .ok (s.data.map (fun c => Json.str ⟨[c]⟩))
  | .obj kvs => .ok (kvs.keys.map JKey.toJson)
  | _ => .error ()


/-- Python `repr` of a hashable scalar. -/
def pyReprKey : JKey → String
  | .null => "None"
  | .bool true => "True"
  | .bool false => "False"
  | .num n => toString n
  | .str s => "'" ++ s ++ "'"

mutual
/-- Python `str()` of a handled value, as used by the reply f-strings:
scalars print as Python prints them; containers print via `repr`. -/
def pyStr : Json → String
  | .null => "None"
  | .bool true => "True"
  | .bool false => "False"
  | .num n => toString n
  | .str s => s
  | .arr xs => "[" ++ pyReprList xs ++ "]"
  | .obj kvs => "\x7b" ++ pyReprObj kvs ++ "\x7d"
def pyRepr : Json → String
  | .null => "None"
  | .bool true => "True"
  | .bool false => "False"
  | .num n => toString n
  | .str s => "'" ++ s ++ "'"
  | .arr xs => "[" ++ pyReprList xs ++ "]"
  | .obj kvs => "\x7b" ++ pyReprObj kvs ++ "\x7d"
def pyReprList : JList → String
  | .nil => ""
  | .cons x .nil => pyRepr x
  | .cons x (.cons y t) => pyRepr x ++ ", " ++ pyReprList (.cons y t)
def pyReprObj : JObj → String
  | .nil => ""
  | .cons k v .nil => pyReprKey k ++ ": " ++ pyRepr v
  | .cons k v (.cons k2 v2 t) =>
    pyReprKey k ++ ": " ++ pyRepr v ++ ", " ++ pyReprObj (.cons k2 v2 t)
end

/-! ## The persisted file (main.py lines 22-31) -/

/-- The persisted file: absent, text that `json.loads` rejects, or text
that parses to a JSON value.  The textual layer of the `json` stdlib
serializer is elided: `valid j` stands for a file whose text parses to
`j`. -/
inductive FileState where
  | absent
  | invalid
  | valid (j : Json)

/-- `load_users` of main.py lines 22-28: the parsed value when the file
exists and parses, the empty mapping when it is absent or fails to parse.
The `try`/`except` of the source makes it total: this is a plain function
into `Json`, never an `Except`. -/
def load_users : FileState → Json
  | .absent => .obj .nil
  | .invalid => .obj .nil
  | .valid j => j

/-- `json.dumps` coercion of non-string dict keys to strings. -/
def dumpKey : JKey → String
  | .null => "null"
  | .bool true => "true"
  | .bool false => "false"
  | .num n => toString n
  | .str s => s

mutual
/-- The value whose serialization `json.dumps` writes: identical to the
input up to coercion of dict keys to strings, at every level. -/
def dumpValue : Json → Json
  | .null => .null
  | .bool b => .bool b
  | .num n => .num n
  | .str s => .str s
  | .arr xs => .arr (dumpList xs)
  | .obj kvs => .obj (dumpObj kvs)
def dumpList : JList → JList
  | .nil => .nil
  | .cons x t => .cons (dumpValue x) (dumpList t)
def dumpObj : JObj → JObj
  | .nil => .nil
  | .cons k v t => .cons (.str (dumpKey k)) (dumpValue v) (dumpObj t)
end

/-- `save_users` of main.py lines 30-31: serialize the whole mapping and
overwrite the file in full. -/
def save_users (data : Json) : FileState := .valid (dumpValue data)

/-- C7: `load_users` returns the parsed mapping for a file that exists and
parses, and the empty mapping when the file is absent or fails to parse;
being a total function into `Json`, it raises nothing in any file state. -/
theorem spec_C7_load_users :
    load_users FileState.absent = Json.obj JObj.nil ∧
    load_users FileState.invalid = Json.obj JObj.nil ∧
    ∀ j : Json, load_users (FileState.valid j) = j :=
  ⟨rfl, rfl, fun _ => rfl⟩

/-! ## Round trip of the persisted mapping (C8) -/

def scalarB : Json → Bool
  | .arr _ => false
  | .obj _ => false
  | _ => true

/-- A flat field value: a scalar, or a list of scalars. -/
def flatB : Json → Bool
  | .arr xs => JList.all scalarB xs
  | .obj _ => false
  | j => scalarB j

def keyIsStr : JKey → Bool
  | .str _ => true
  | _ => false

/-- A user record as persisted: a dict with string keys and flat values. -/
def recordB (u : Json) : Bool :=
  match u with
  | .obj rvs => JObj.all (fun k v => keyIsStr k && flatB v) rvs
  | _ => false

/-- A persisted mapping: a dict from string user ids to records. -/
def storeB (m : Json) : Bool :=
  match m with
  | .obj kvs => JObj.all (fun k v => keyIsStr k && recordB v) kvs
  | _ => false

/-- Some string of the list differs from its case-folded form. -/
def mixedList (j : Json) : Bool :=
  match j with
  | .arr xs =>
    (match xs with
      | .nil => false
      | .cons _ _ => true) &&
    JList.anyB (fun v =>
      match v with
      | .str s => !(pyLower s == s)
      | _ => false) xs
  | _ => false

/-- Some user of the mapping holds a nonempty, case-mixed keyword list. -/
def hasMixedUser (m : Json) : Bool :=
  match m with
  | .obj kvs =>
    JObj.anyB (fun _ v =>
      match v with
      | .obj rvs =>
        match rvs.lookup (.str "keywords") with
        | some kw => mixedList kw
        | none => false
      | _ => false) kvs
  | _ => false

theorem dumpValue_scalar (j : Json) (h : scalarB j = true) : dumpValue j = j := by
  cases j <;> simp [scalarB] at h <;> rfl

theorem dumpList_flat (xs : JList) (h : JList.all scalarB xs = true) :
    dumpList xs = xs := by
  match xs with
  | .nil => rfl
  | .cons x t =>
    rw [JList.all] at h
    obtain ⟨h1, h2⟩ := Bool.and_eq_true_iff.mp h
    rw [dumpList, dumpValue_scalar x h1, dumpList_flat t h2]

theorem dumpValue_flat (j : Json) (h : flatB j = true) : dumpValue j = j := by
  cases j with
  | arr xs =>
    rw [flatB] at h
    rw [dumpValue, dumpList_flat xs h]
  | obj kvs => rw [flatB] at h; exact Bool.noConfusion h
  | null => rfl
  | bool b => rfl
  | num n => rfl
  | str s => rfl

theorem dumpObj_record (rvs : JObj)
    (h : JObj.all (fun k v => keyIsStr k && flatB v) rvs = true) :
    dumpObj rvs = rvs := by
  match rvs with
  | .nil => rfl
  | .cons k v t =>
    rw [JObj.all] at h
    obtain ⟨h1, h2⟩ := Bool.and_eq_true_iff.mp h
    obtain ⟨hk, hv⟩ := Bool.and_eq_true_iff.mp h1
    rw [dumpObj, dumpValue_flat v hv, dumpObj_record t h2]
    cases k <;> simp [keyIsStr] at hk <;> rfl

theorem dumpValue_record (u : Json) (h : recordB u = true) : dumpValue u = u := by
  cases u <;> rw [recordB] at h
  case obj rvs => rw [dumpValue, dumpObj_record rvs h]
  all_goals exact Bool.noConfusion h

theorem dumpObj_store (kvs : JObj)
    (h : JObj.all (fun k v => keyIsStr k && recordB v) kvs = true) :
    dumpObj kvs = kvs := by
  match kvs with
  | .nil => rfl
  | .cons k v t =>
    rw [JObj.all] at h
    obtain ⟨h1, h2⟩ := Bool.and_eq_true_iff.mp h
    obtain ⟨hk, hv⟩ := Bool.and_eq_true_iff.mp h1
    rw [dumpObj, dumpValue_record v hv, dumpObj_store t h2]
    cases k <;> simp [keyIsStr] at hk <;> rfl

/-- C8: saving a persisted-shaped mapping (string user ids, records with
string keys and flat values) and loading the result back yields the
original mapping, with insertion order of the keys and of each record's
lists preserved (the values are equal as ordered structures); the claim's
hypothesis that some user holds a nonempty, case-mixed keyword list is
carried along. -/
theorem spec_C8_save_load_roundtrip :
    ∀ m : Json, storeB m = true → hasMixedUser m = true →
      load_users (save_users m) = m := by
  intro m hs hm
  clear hm
  show dumpValue m = m
  cases m <;> rw [storeB] at hs
  case obj kvs => rw [dumpValue, dumpObj_store kvs hs]
  all_goals exact Bool.noConfusion hs

theorem spec_C8_save_load_roundtrip_witness :
    (storeB (Json.obj (JObj.cons (JKey.str "u")
        (Json.obj (JObj.cons (JKey.str "keywords")
          (Json.arr (JList.cons (Json.str "Ai") (JList.cons (Json.str "car") JList.nil)))
          JObj.nil))
        JObj.nil)) = true ∧
      hasMixedUser (Json.obj (JObj.cons (JKey.str "u")
        (Json.obj (JObj.cons (JKey.str "keywords")
          (Json.arr (JList.cons (Json.str "Ai") (JList.cons (Json.str "car") JList.nil)))
          JObj.nil))
        JObj.nil)) = true) ∧
    load_users (save_users (Json.obj (JObj.cons (JKey.str "u")
        (Json.obj (JObj.cons (JKey.str "keywords")
          (Json.arr (JList.cons (Json.str "Ai") (JList.cons (Json.str "car") JList.nil)))
          JObj.nil))
        JObj.nil)))
      = Json.obj (JObj.cons (JKey.str "u")
          (Json.obj (JObj.cons (JKey.str "keywords")
            (Json.arr (JList.cons (Json.str "Ai") (JList.cons (Json.str "car") JList.nil)))
            JObj.nil))
          JObj.nil) :=
  ⟨⟨by decide, by decide⟩,
    spec_C8_save_load_roundtrip _ (by decide) (by decide)⟩

/-! ## The webhook handler (main.py lines 82-177) -/

/-- The follow-greeting text of main.py lines 108-111. -/
def followText : String :=
  "友だち追加ありがとうございます！\n" ++
  "キーワード登録: 例）+ 生成AI, 自動運転\n" ++
  "キーワード削除: 例）- 生成AI\n" ++
  "一覧表示: list / keywords / キーワード"

/-- Extract a Python string where the source calls a `str` method on the
value (any other type raises `AttributeError`). -/
def asStr (j : Json) : Except Unit String :=
  match j with
  | .str s => .ok s
  | _ => .error ()

def asStrListAux : JList → Except Unit (List String)
  | .nil => .ok []
  | .cons x t =>
    match x with
    | .str s => (asStrListAux t).map (fun l => s :: l)
    | _ => .error ()

/-- The keyword list of a record as Python strings.  Iterating and
case-folding the entries requires a list of strings; any other shape is
modelled as raising (a string value, which Python would iterate
character-wise, is modelled as raising as well — no claim exercises it). -/
def asStrList (j : Json) : Except Unit (List String) :=
  match j with
  | .arr xs => asStrListAux xs
  | _ => .error ()

def jlistOfStrs : List String → JList
  | [] => .nil
  | s :: t => .cons (.str s) (jlistOfStrs t)

def strListToJson (l : List String) : Json := .arr (jlistOfStrs l)

/-- The body of the message branch, main.py lines 116-175: preprocessing,
the per-user record, and the add / remove / list / echo dispatch.  These
branches share `normalize_keywords`, `addLoop`, the remove filters and the
reply builders with the typed view above. -/
def messageBranch (users : Json) (file : FileState)
    (reply_token text user_id : Json) :
    Except Unit (Json × FileState × List (Json × String)) := do
  let rawS ← asStr (if pyTruthy text then text else .str "")
  let cmd := pyStrip (replaceFullWidth rawS)
  let cmdLower := pyLower cmd
  let first := if cmdLower = "" then "" else firstTok cmdLower
  let ukey ← toKey user_id
  let u ← pyGetD users ukey (.obj (.cons (.str "keywords") (.arr .nil) .nil))
  if pyStartsWith cmdLower '+' then do
    let kwj ← pyGetItem u (.str "keywords")
    let ks ← asStrList kwj
    let kws := normalize_keywords (strDrop1 cmd)
    let res := addLoop kws ks []
    let u2 := pySetItem u (.str "keywords") (strListToJson res.1)
    let users2 := pySetItem users ukey u2
    pure (users2, save_users users2, [(reply_token, addReplyText res.2 res.1)])
  else if pyStartsWith cmdLower '-' then do
    let kwj ← pyGetItem u (.str "keywords")
    let ks ← asStrList kwj
    let kws := normalize_keywords (strDrop1 cmd)
    let toRemove := kws.map pyLower
    let newKs := ks.filter (fun k => !(toRemove.contains (pyLower k)))
    let removed := ks.filter (fun k => toRemove.contains (pyLower k))
    let u2 := pySetItem u (.str "keywords") (strListToJson newKs)
    let users2 := pySetItem users ukey u2
    pure (users2, save_users users2, [(reply_token, removeReplyText removed newKs)])
  else if first ∈ (["list", "keywords", "キーワード"] : List String) then do
    let kwj ← pyGetD u (.str "keywords") (.arr .nil)
    let ks ← asStrList kwj
    pure (users, file, [(reply_token, listReplyText ks)])
  else
    pure (users, file, [(reply_token,
      "受け取りました：" ++ pyStr text ++ "\nあなたのuserId: " ++ pyStr user_id)])

/-- The computation of `text` at main.py line 102:
`(ev.get("message", {}) or {}).get("text", "")` for message-typed events,
`""` otherwise. -/
def textOf (ev : Json) (etype : Json) : Except Unit Json :=
  if etype.isStr "message" then do
    let m ← pyGetD ev (.str "message") (.obj .nil)
    pyGetD (if pyTruthy m then m else .obj .nil) (.str "text") (.str "")
  else pure (Json.str "")

/-- One iteration of the event loop of main.py lines 97-175: the updated
in-memory store, the updated file, and the replies sent (reply token,
text), or an uncaught Python exception.  Field accesses, truthiness tests
and dispatch follow the source line by line. -/
def processEvent (users : Json) (file : FileState) (ev : Json) :
    Except Unit (Json × FileState × List (Json × String)) := do
  let etype ← pyGet ev (.str "type")
  let src ← pyGetD ev (.str "source") (.obj .nil)
  let user_id ← pyGet src (.str "userId")
  let reply_token ← pyGet ev (.str "replyToken")
  let text ← textOf ev etype
  if etype.isStr "follow" && pyTruthy reply_token then
    pure (users, file, [(reply_token, followText)])
  else if etype.isStr "message" && pyTruthy reply_token then
    messageBranch users file reply_token text user_id
  else
    pure (users, file, [])

/-- Python `data.get("events", [])` followed by entering `for ev in ...`. -/
def eventsOf (data : Json) : Except Unit (List Json) := do
  let evs ← pyGetD data (.str "events") (.arr .nil)
  pyIter evs

/-- The event loop: earlier events' saves and replies take effect even when
a later event raises (`true` in the last component: the loop was aborted by
an uncaught exception). -/
def runEvents (users : Json) (file : FileState) :
    List Json → Json × FileState × List (Json × String) × Bool
  | [] => (users, file, [], false)
  | ev :: rest =>
    match processEvent users file ev with
    | .error _ => (users, file, [], true)
    | .ok (u2, f2, rs) =>
      match runEvents u2 f2 rest with
      | (u3, f3, rs2, c) => (u3, f3, rs ++ rs2, c)

/-- HTTP outcome of the webhook route: `ok` is the 200 response with body
`{"status": "ok"}`, `clientError` the 400 `HTTPException` with its detail,
`serverError` the 500 produced by an exception the handler does not
catch. -/
inductive Resp where
  | ok
  | clientError (detail : String)
  | serverError
deriving DecidableEq

/-- `line_webhook` of main.py lines 82-177.  `parsed` is the result of
`json.loads` on the raw body (`none`: parse failure); the signature check
runs `verify_signature` on the raw body bytes; then the store is loaded
once and the events are iterated.  The result carries the final file state
and the replies sent. -/
def line_webhook (bodyBytes : List Nat) (parsed : Option Json)
    (x_line_signature : Option String) (channel_secret : List Nat)
    (file : FileState) : Resp × FileState × List (Json × String) :=
  match parsed with
  | none => (.clientError "invalid body", file, [])
  | some data =>
    if verify_signature bodyBytes x_line_signature channel_secret = false then
      (.clientError "invalid signature", file, [])
    else
      match eventsOf data with
      | .error _ => (.serverError, file, [])
      | .ok evs =>
        match runEvents (load_users file) file evs with
        | (_, f2, rs, true) => (.serverError, f2, rs)
        | (_, f2, rs, false) => (.ok, f2, rs)

/-! ## Shapes under which the handler raises nothing (C5) -/

/-- Hashable values (lists and dicts raise `TypeError` as dict keys). -/
def hashableB : Json → Bool
  | .arr _ => false
  | .obj _ => false
  | _ => true

def isStrB : Json → Bool
  | .str _ => true
  | _ => false

/-- Record shape expected by the command branches: a dict whose
`keywords` entry holds a list of strings. -/
def recOK (u : Json) : Bool :=
  match u with
  | .obj rvs =>
    match rvs.lookup (.str "keywords") with
    | some (.arr xs) => JList.all isStrB xs
    | _ => false
  | _ => false

/-- In-memory store shape under which the command branches cannot raise. -/
def storeOK (users : Json) : Bool :=
  match users with
  | .obj kvs => JObj.all (fun _ v => recOK v) kvs
  | _ => false

/-- For a message-typed event: the `message` value is absent, falsy, or an
object whose `text` is absent, a string, or falsy. -/
def msgOK (kvs : JObj) : Bool :=
  match kvs.lookup (.str "message") with
  | none => true
  | some (.obj mvs) =>
    match mvs.lookup (.str "text") with
    | none => true
    | some v => isStrB v || !(pyTruthy v)
  | some m => !(pyTruthy m)

/-- Events the handler processes without raising: a JSON object whose
`source` (when present) is an object with a hashable `userId` (when
present), and, for message-typed events, a well-shaped `message`. -/
def evOK (ev : Json) : Bool :=
  match ev with
  | .obj kvs =>
    (match kvs.lookup (.str "source") with
      | none => true
      | some (.obj svs) =>
        (match svs.lookup (.str "userId") with
          | none => true
          | some v => hashableB v)
      | some _ => false) &&
    (match kvs.lookup (.str "type") with
      | some (.str t) => if t == "message" then msgOK kvs else true
      | _ => true)
  | _ => false

/-- Payload shape for the amended always-200 statement: `events` absent or
a list of well-shaped events. -/
def evsOK (data : Json) : Bool :=
  match data with
  | .obj kvs =>
    match kvs.lookup (.str "events") with
    | none => true
    | some (.arr xs) => JList.all evOK xs
    | some _ => false
  | _ => false

theorem JObj.lookup_all {p : JKey → Json → Bool} (kvs : JObj) (k : JKey) (v : Json)
    (hall : JObj.all p kvs = true) (hl : JObj.lookup kvs k = some v) : p k v = true := by
  match kvs with
  | .nil => exact Option.noConfusion hl
  | .cons k2 v2 t =>
    rw [JObj.all] at hall
    obtain ⟨h1, h2⟩ := Bool.and_eq_true_iff.mp hall
    rw [JObj.lookup] at hl
    by_cases he : k2 = k
    · rw [if_pos he] at hl
      injection hl with hv
      subst he
      subst hv
      exact h1
    · rw [if_neg he] at hl
      exact JObj.lookup_all t k v h2 hl

theorem JObj.all_set {p : JKey → Json → Bool} (kvs : JObj) (k : JKey) (v : Json)
    (hall : JObj.all p kvs = true) (hv : p k v = true) :
    JObj.all p (JObj.set kvs k v) = true := by
  match kvs with
  | .nil =>
    rw [JObj.set, JObj.all, JObj.all]
    simp [hv]
  | .cons k2 v2 t =>
    rw [JObj.all] at hall
    obtain ⟨h1, h2⟩ := Bool.and_eq_true_iff.mp hall
    rw [JObj.set]
    by_cases he : k2 = k
    · rw [if_pos he, JObj.all]
      simp [hv, h2]
    · rw [if_neg he, JObj.all]
      simp [h1, JObj.all_set t k v h2 hv]

theorem JObj.lookup_set_self (kvs : JObj) (k : JKey) (v : Json) :
    JObj.lookup (JObj.set kvs k v) k = some v := by
  match kvs with
  | .nil => simp [JObj.set, JObj.lookup]
  | .cons k2 v2 t =>
    rw [JObj.set]
    by_cases he : k2 = k
    · rw [if_pos he, JObj.lookup, if_pos rfl]
    · rw [if_neg he, JObj.lookup, if_neg he, JObj.lookup_set_self t k v]

theorem asStrListAux_ok (xs : JList) (h : JList.all isStrB xs = true) :
    ∃ l, asStrListAux xs = .ok l := by
  match xs with
  | .nil => exact ⟨[], rfl⟩
  | .cons x t =>
    rw [JList.all] at h
    obtain ⟨h1, h2⟩ := Bool.and_eq_true_iff.mp h
    obtain ⟨l, hl⟩ := asStrListAux_ok t h2
    match x with
    | .str s => exact ⟨s :: l, by rw [asStrListAux, hl]; rfl⟩
    | .null | .bool _ | .num _ | .arr _ | .obj _ => simp [isStrB] at h1

theorem jlistOfStrs_all (l : List String) : JList.all isStrB (jlistOfStrs l) = true := by
  match l with
  | [] => rfl
  | s :: t =>
    rw [jlistOfStrs, JList.all, jlistOfStrs_all t]
    rfl

theorem recOK_after_set (rvs : JObj) (l : List String) :
    recOK (Json.obj (JObj.set rvs (.str "keywords") (strListToJson l))) = true := by
  unfold recOK strListToJson
  dsimp only
  rw [JObj.lookup_set_self]
  exact jlistOfStrs_all l

theorem recOK_setItem (uv : Json) (rvs : JObj) (hrv : uv = .obj rvs) (l : List String) :
    recOK (pySetItem uv (.str "keywords") (strListToJson l)) = true := by
  rw [hrv]
  exact recOK_after_set rvs l

theorem storeOK_set_record (uvs : JObj) (uk : JKey) (u2 : Json)
    (hst : storeOK (.obj uvs) = true) (h2 : recOK u2 = true) :
    storeOK (pySetItem (.obj uvs) uk u2) = true := by
  rw [storeOK] at hst
  show storeOK (Json.obj (JObj.set uvs uk u2)) = true
  rw [storeOK]
  exact JObj.all_set uvs uk u2 hst h2

theorem exceptOk_bind {α β : Type} (a : α) (f : α → Except Unit β) :
    (Except.ok a >>= f : Except Unit β) = f a := rfl

theorem messageBranch_ok (users : Json) (file : FileState)
    (rt text user_id : Json)
    (hst : storeOK users = true)
    (htext : (isStrB text || !(pyTruthy text)) = true)
    (huid : hashableB user_id = true) :
    ∃ out, messageBranch users file rt text user_id = .ok out ∧ storeOK out.1 = true := by
  obtain ⟨uvs, huvs⟩ : ∃ uvs, users = .obj uvs := by
    cases users <;> first
      | exact ⟨_, rfl⟩
      | (simp [storeOK] at hst)
  subst huvs
  obtain ⟨s, hs⟩ : ∃ s, asStr (if pyTruthy text then text else .str "") = .ok s := by
    by_cases ht : pyTruthy text = true
    · rw [if_pos ht]
      cases text <;> first
        | exact ⟨_, rfl⟩
        | (exfalso; rw [ht] at htext; simp [isStrB] at htext)
    · rw [if_neg ht]
      exact ⟨"", rfl⟩
  obtain ⟨uk, huk⟩ : ∃ uk, toKey user_id = .ok uk := by
    cases user_id <;> first
      | exact ⟨_, rfl⟩
      | (simp [hashableB] at huid)
  have hrec : recOK ((JObj.lookup uvs uk).getD
      (Json.obj (JObj.cons (JKey.str "keywords") (Json.arr JList.nil) JObj.nil))) = true := by
    cases hl : JObj.lookup uvs uk with
    | none => rfl
    | some v =>
      rw [storeOK] at hst
      simpa using JObj.lookup_all uvs uk v hst hl
  obtain ⟨rvs, hrv, xs, hxs, hall⟩ :
      ∃ rvs, (JObj.lookup uvs uk).getD
          (Json.obj (JObj.cons (JKey.str "keywords") (Json.arr JList.nil) JObj.nil))
        = Json.obj rvs ∧
        ∃ xs, JObj.lookup rvs (.str "keywords") = some (.arr xs) ∧
          JList.all isStrB xs = true := by
    generalize huv : (JObj.lookup uvs uk).getD
        (Json.obj (JObj.cons (JKey.str "keywords") (Json.arr JList.nil) JObj.nil)) = uv at hrec
    cases uv with
    | obj rvs =>
      rw [recOK] at hrec
      cases hkl : JObj.lookup rvs (.str "keywords") with
      | none => rw [hkl] at hrec; exact Bool.noConfusion hrec
      | some w =>
        rw [hkl] at hrec
        cases w with
        | arr xs => exact ⟨rvs, rfl, xs, hkl, hrec⟩
        | null => exact Bool.noConfusion hrec
        | bool b => exact Bool.noConfusion hrec
        | num n => exact Bool.noConfusion hrec
        | str s2 => exact Bool.noConfusion hrec
        | obj o => exact Bool.noConfusion hrec
    | null => simp [recOK] at hrec
    | bool b => simp [recOK] at hrec
    | num n => simp [recOK] at hrec
    | str s2 => simp [recOK] at hrec
    | arr a => simp [recOK] at hrec
  obtain ⟨ks, hks⟩ := asStrListAux_ok xs hall
  unfold messageBranch
  rw [hs]
  simp only [exceptOk_bind]
  rw [huk]
  simp only [exceptOk_bind, pyGetD]
  rw [hrv]
  by_cases hplus : pyStartsWith (pyLower (pyStrip (replaceFullWidth s))) '+' = true
  · rw [if_pos hplus]
    have hgi : pyGetItem (Json.obj rvs) (JKey.str "keywords") = .ok (.arr xs) := by
      simp [pyGetItem, hxs]
    rw [hgi]
    simp only [exceptOk_bind]
    rw [show asStrList (Json.arr xs) = Except.ok ks from hks]
    simp only [exceptOk_bind]
    exact ⟨_, rfl, storeOK_set_record uvs uk _ hst (recOK_setItem _ rvs rfl _)⟩
  · rw [if_neg hplus]
    by_cases hminus : pyStartsWith (pyLower (pyStrip (replaceFullWidth s))) '-' = true
    · rw [if_pos hminus]
      have hgi : pyGetItem (Json.obj rvs) (JKey.str "keywords") = .ok (.arr xs) := by
        simp [pyGetItem, hxs]
      rw [hgi]
      simp only [exceptOk_bind]
      rw [show asStrList (Json.arr xs) = Except.ok ks from hks]
      simp only [exceptOk_bind]
      exact ⟨_, rfl, storeOK_set_record uvs uk _ hst (recOK_setItem _ rvs rfl _)⟩
    · rw [if_neg hminus]
      by_cases hlst : (if pyLower (pyStrip (replaceFullWidth s)) = "" then ""
            else firstTok (pyLower (pyStrip (replaceFullWidth s))))
          ∈ (["list", "keywords", "キーワード"] : List String)
      · rw [if_pos hlst]
        dsimp only
        rw [hxs]
        simp only [Option.getD_some, exceptOk_bind]
        rw [show asStrList (Json.arr xs) = Except.ok ks from hks]
        simp only [exceptOk_bind]
        exact ⟨_, rfl, hst⟩
      · rw [if_neg hlst]
        exact ⟨_, rfl, hst⟩

theorem processEvent_ok (users : Json) (file : FileState) (ev : Json)
    (hst : storeOK users = true) (hev : evOK ev = true) :
    ∃ out, processEvent users file ev = .ok out ∧ storeOK out.1 = true := by
  obtain ⟨kvs, hkvs⟩ : ∃ kvs, ev = .obj kvs := by
    cases ev <;> first
      | exact ⟨_, rfl⟩
      | (simp [evOK] at hev)
  subst hkvs
  rw [evOK] at hev
  obtain ⟨hsrcOK, htypeOK⟩ := Bool.and_eq_true_iff.mp hev
  obtain ⟨svs, hsv, huid⟩ :
      ∃ svs, (JObj.lookup kvs (.str "source")).getD (Json.obj JObj.nil) = Json.obj svs ∧
        hashableB ((JObj.lookup svs (.str "userId")).getD Json.null) = true := by
    cases hsl : JObj.lookup kvs (.str "source") with
    | none => exact ⟨JObj.nil, rfl, rfl⟩
    | some sv =>
      rw [hsl] at hsrcOK
      cases sv with
      | obj svs =>
        refine ⟨svs, rfl, ?_⟩
        cases hul : JObj.lookup svs (.str "userId") with
        | none => rfl
        | some v =>
          dsimp only at hsrcOK
          rw [hul] at hsrcOK
          simpa using hsrcOK
      | null => exact Bool.noConfusion hsrcOK
      | bool b => exact Bool.noConfusion hsrcOK
      | num n => exact Bool.noConfusion hsrcOK
      | str s => exact Bool.noConfusion hsrcOK
      | arr a => exact Bool.noConfusion hsrcOK
  unfold processEvent
  simp only [pyGet, pyGetD, exceptOk_bind]
  rw [hsv]
  simp only [exceptOk_bind]
  obtain ⟨tv, htv, htextv⟩ :
      ∃ tv,
        textOf (Json.obj kvs) ((JObj.lookup kvs (.str "type")).getD Json.null)
          = Except.ok tv ∧
        (isStrB tv || !(pyTruthy tv)) = true := by
    unfold textOf
    by_cases hmt : Json.isStr ((JObj.lookup kvs (.str "type")).getD Json.null) "message" = true
    · rw [if_pos hmt]
      have hmOK : msgOK kvs = true := by
        cases hty : JObj.lookup kvs (.str "type") with
        | none => rw [hty] at hmt; simp [Json.isStr] at hmt
        | some tv2 =>
          rw [hty] at htypeOK hmt
          cases tv2 with
          | str t =>
            simp only [Option.getD_some] at hmt
            rw [Json.isStr] at hmt
            dsimp only at htypeOK
            rw [hmt] at htypeOK
            simpa using htypeOK
          | null => simp [Json.isStr] at hmt
          | bool b => simp [Json.isStr] at hmt
          | num n => simp [Json.isStr] at hmt
          | arr a => simp [Json.isStr] at hmt
          | obj o => simp [Json.isStr] at hmt
      rw [msgOK] at hmOK
      simp only [pyGetD, exceptOk_bind]
      cases hml : JObj.lookup kvs (.str "message") with
      | none =>
        exact ⟨Json.str "", rfl, by decide⟩
      | some m =>
        rw [hml] at hmOK
        simp only [Option.getD_some]
        cases m with
        | obj mvs =>
          dsimp only at hmOK
          cases mvs with
          | nil => exact ⟨Json.str "", rfl, by decide⟩
          | cons k2 v2 t2 =>
            refine ⟨(JObj.lookup (JObj.cons k2 v2 t2) (.str "text")).getD (.str ""),
              rfl, ?_⟩
            cases hxt : JObj.lookup (JObj.cons k2 v2 t2) (.str "text") with
            | none => decide
            | some v =>
              rw [hxt] at hmOK
              simp only [Option.getD_some]
              simpa using hmOK
        | null =>
          exact ⟨Json.str "", rfl, by decide⟩
        | bool b =>
          have hf : pyTruthy (Json.bool b) = false := by simpa using hmOK
          rw [hf]
          simp only [Bool.false_eq_true, if_false]
          exact ⟨Json.str "", rfl, by decide⟩
        | num n =>
          have hf : pyTruthy (Json.num n) = false := by simpa using hmOK
          rw [hf]
          simp only [Bool.false_eq_true, if_false]
          exact ⟨Json.str "", rfl, by decide⟩
        | str s =>
          have hf : pyTruthy (Json.str s) = false := by simpa using hmOK
          rw [hf]
          simp only [Bool.false_eq_true, if_false]
          exact ⟨Json.str "", rfl, by decide⟩
        | arr a =>
          have hf : pyTruthy (Json.arr a) = false := by simpa using hmOK
          rw [hf]
          simp only [Bool.false_eq_true, if_false]
          exact ⟨Json.str "", rfl, by decide⟩
    · rw [if_neg hmt]
      exact ⟨Json.str "", rfl, by decide⟩
  rw [htv]
  simp only [exceptOk_bind]
  by_cases hb1 : (Json.isStr ((JObj.lookup kvs (.str "type")).getD Json.null) "follow" &&
      pyTruthy ((JObj.lookup kvs (.str "replyToken")).getD Json.null)) = true
  · rw [if_pos hb1]
    exact ⟨_, rfl, hst⟩
  · rw [if_neg hb1]
    by_cases hb2 : (Json.isStr ((JObj.lookup kvs (.str "type")).getD Json.null) "message" &&
        pyTruthy ((JObj.lookup kvs (.str "replyToken")).getD Json.null)) = true
    · rw [if_pos hb2]
      exact messageBranch_ok users file _ tv _ hst htextv huid
    · rw [if_neg hb2]
      exact ⟨_, rfl, hst⟩

theorem JList.all_toList {p : Json → Bool} (xs : JList) (h : JList.all p xs = true) :
    ∀ v ∈ xs.toList, p v = true := by
  match xs with
  | .nil => intro v hv; simp [JList.toList] at hv
  | .cons x t =>
    rw [JList.all] at h
    obtain ⟨h1, h2⟩ := Bool.and_eq_true_iff.mp h
    intro v hv
    rcases List.mem_cons.mp hv with h3 | h3
    · subst h3; exact h1
    · exact JList.all_toList t h2 v h3

theorem runEvents_ok (evs : List Json) : ∀ (users : Json) (file : FileState),
    storeOK users = true → (∀ ev ∈ evs, evOK ev = true) →
    (runEvents users file evs).2.2.2 = false := by
  induction evs with
  | nil => intro users file _ _; rfl
  | cons ev rest ih =>
    intro users file hst hall
    obtain ⟨out, ho, hso⟩ :=
      processEvent_ok users file ev hst (hall ev (List.mem_cons_self _ _))
    obtain ⟨u2, f2, rs⟩ := out
    have hr := ih u2 f2 hso (fun e he => hall e (List.mem_cons_of_mem _ he))
    simp only [runEvents, ho]
    rcases hrun : runEvents u2 f2 rest with ⟨u3, f3, rs2, c⟩
    rw [hrun] at hr
    simpa using hr

/-- A well-formed message event: `{"type": "message", "replyToken": "t",
"source": {"userId": "u"}, "message": {"text": "+ai"}}`. -/
def c5GoodEvent : Json :=
  Json.obj (JObj.cons (JKey.str "type") (Json.str "message")
    (JObj.cons (JKey.str "replyToken") (Json.str "t")
      (JObj.cons (JKey.str "source")
        (Json.obj (JObj.cons (JKey.str "userId") (Json.str "u") JObj.nil))
        (JObj.cons (JKey.str "message")
          (Json.obj (JObj.cons (JKey.str "text") (Json.str "+ai") JObj.nil))
          JObj.nil))))

/-- `{"events": [null, <well-formed message event>]}`: one malformed
(non-object) event and one well-formed message event. -/
def c5BadPayload : Json :=
  Json.obj (JObj.cons (JKey.str "events")
    (Json.arr (JList.cons Json.null (JList.cons c5GoodEvent JList.nil))) JObj.nil)

/-- `{"events": [{}, <well-formed message event>]}`: one malformed but
object-shaped event and one well-formed message event. -/
def c5MixedPayload : Json :=
  Json.obj (JObj.cons (JKey.str "events")
    (Json.arr (JList.cons (Json.obj JObj.nil) (JList.cons c5GoodEvent JList.nil)))
    JObj.nil)

/-- C5, counterexample: this payload parses as JSON and passes signature
verification (no secret configured), and contains one malformed event
(`null`) and one well-formed message event — yet the request does not
return 200: the handler raises on the malformed event (`.get` on a
non-dict), the batch is aborted with a 500 server error, and the reply for
the well-formed event is never produced.  Malformed events are therefore
not, in general, skipped. -/
theorem spec_C5_counterexample :
    verify_signature [] none [] = true ∧
    line_webhook [] (some c5BadPayload) none [] FileState.absent
      = (Resp.serverError, FileState.absent, []) :=
  ⟨rfl, rfl⟩

/-- C5 (amended): the handler returns 400 exactly when the body fails to
parse or the signature fails to verify (with an empty secret, verification
never fails); a payload whose events are all well-shaped objects (`evOK` —
this includes object-shaped malformed events with missing or null fields,
which are skipped without a reply), processed against a well-shaped store,
runs to completion and returns 200 `{"status": "ok"}`.  Concretely, a
payload with one malformed-but-object event `{}` and one well-formed
message event returns 200 and produces the reply for the well-formed
event.  Events of other shapes can raise, and the request then returns a
500 server error (see the counterexample). -/
theorem spec_C5_webhook_amended :
    (∀ (bodyBytes : List Nat) (parsed : Option Json) (sig : Option String)
        (secret : List Nat) (file : FileState),
        (∃ d, (line_webhook bodyBytes parsed sig secret file).1 = Resp.clientError d) ↔
          (parsed = none ∨ verify_signature bodyBytes sig secret = false)) ∧
    (∀ (bodyBytes : List Nat) (data : Json) (sig : Option String)
        (secret : List Nat) (file : FileState),
        verify_signature bodyBytes sig secret = true →
        storeOK (load_users file) = true →
        evsOK data = true →
        (line_webhook bodyBytes (some data) sig secret file).1 = Resp.ok) ∧
    line_webhook [] (some c5MixedPayload) none [] FileState.absent
      = (Resp.ok,
          FileState.valid (Json.obj (JObj.cons (JKey.str "u")
            (Json.obj (JObj.cons (JKey.str "keywords")
              (Json.arr (JList.cons (Json.str "ai") JList.nil)) JObj.nil)) JObj.nil)),
          [(Json.str "t", "登録しました：ai\n現在のキーワード：ai")]) := by
  refine ⟨?_, ?_, rfl⟩
  · intro bodyBytes parsed sig secret file
    cases parsed with
    | none =>
      constructor
      · intro _; exact Or.inl rfl
      · intro _; exact ⟨"invalid body", rfl⟩
    | some data =>
      by_cases hv : verify_signature bodyBytes sig secret = false
      · constructor
        · intro _; exact Or.inr hv
        · intro _
          refine ⟨"invalid signature", ?_⟩
          simp only [line_webhook]
          rw [if_pos hv]
      · constructor
        · rintro ⟨d, hd⟩
          simp only [line_webhook] at hd
          rw [if_neg hv] at hd
          rcases he : eventsOf data with e | evs
          · rw [he] at hd
            exact Resp.noConfusion hd
          · rw [he] at hd
            dsimp only at hd
            rcases hrun : runEvents (load_users file) file evs with ⟨u3, f3, rs3, c⟩
            rw [hrun] at hd
            cases c
            · exact Resp.noConfusion hd
            · exact Resp.noConfusion hd
        · rintro (h | h)
          · exact Option.noConfusion h
          · exact absurd h hv
  · intro bodyBytes data sig secret file hv hst hdata
    obtain ⟨evs, hevs, hall⟩ :
        ∃ evs, eventsOf data = .ok evs ∧ ∀ ev ∈ evs, evOK ev = true := by
      obtain ⟨kvs, hkvs⟩ : ∃ kvs, data = .obj kvs := by
        cases data <;> first
          | exact ⟨_, rfl⟩
          | (simp [evsOK] at hdata)
      subst hkvs
      rw [evsOK] at hdata
      unfold eventsOf
      simp only [pyGetD, exceptOk_bind]
      cases hel : JObj.lookup kvs (.str "events") with
      | none => exact ⟨[], rfl, by intro v hv2; simp at hv2⟩
      | some e =>
        rw [hel] at hdata
        cases e with
        | arr xs =>
          refine ⟨xs.toList, rfl, ?_⟩
          exact JList.all_toList xs hdata
        | null => exact Bool.noConfusion hdata
        | bool b => exact Bool.noConfusion hdata
        | num n => exact Bool.noConfusion hdata
        | str s => exact Bool.noConfusion hdata
        | obj o => exact Bool.noConfusion hdata
    simp only [line_webhook]
    rw [if_neg (fun h => by rw [hv] at h; exact Bool.noConfusion h), hevs]
    dsimp only
    have hc := runEvents_ok evs (load_users file) file hst hall
    rcases hrun : runEvents (load_users file) file evs with ⟨u3, f3, rs3, c⟩
    rw [hrun] at hc
    simp only at hc
    subst hc
    rfl

theorem spec_C5_webhook_amended_witness :
    (verify_signature [] none [] = true ∧
      storeOK (load_users FileState.absent) = true ∧
      evsOK c5MixedPayload = true) ∧
    (line_webhook [] (some c5MixedPayload) none [] FileState.absent).1 = Resp.ok :=
  ⟨⟨by decide, by decide, by decide⟩,
    spec_C5_webhook_amended.2.1 [] c5MixedPayload none [] FileState.absent
      (by decide) (by decide) (by decide)⟩
